import Mathlib

/-!
# pvdrm: slot pool and back-end handle table

A shallow embedding of `drivers/gpu/drm/pvdrm/pvdrm_slot.c` and
`drivers/gpu/drm/pvdrm-back/pvdrm_back_file.c`.

Conventions of the embedding.

* The shared page (`struct pvdrm_mapped`) is a record whose two arrays are
  functions from the index to the cell; the loops of the source range over
  `i < PVDRM_SLOT_NR` exactly as written.
* A `struct pvdrm_slot*` argument that points into `mapped->slot` is the index of
  the slot.
* `BUG_ON` that fires and `down` on an exhausted semaphore are explicit outcomes.
* The spin lock is not modelled: every operation is one atomic step.
* The constants of `pvdrm_slot.h` and `pvdrm_back_drv.h` are parameters.
-/

namespace Pvdrm

/-! ## Slot pool: data model -/

/-- Constants declared in `pvdrm_slot.h`: the pool capacity and the two slot
codes that `pvdrm_slot.c` names. -/
structure slot_consts where
  PVDRM_SLOT_NR : Nat
  PVDRM_UNUSED : Int
  PVDRM_HELD : Int
deriving DecidableEq, Repr

/-- Modelled from the spec: the fence embedded in a slot (`pvdrm_fence.h` is not
part of the sources). The spec gives it the sub-states `Pending -> Signaled`. -/
inductive pvdrm_fence where
  | Pending
  | Signaled
deriving DecidableEq, Repr

/-- Modelled from the spec: `pvdrm_fence_init` (not part of the sources) re-arms
the fence: whatever it held, it is fresh (unsignaled) afterwards. -/
def pvdrm_fence_init (_fence : pvdrm_fence) : pvdrm_fence := pvdrm_fence.Pending

/-- The fields of `struct pvdrm_slot` that `pvdrm_slot.c` touches. -/
structure pvdrm_slot where
  __id : Nat
  code : Int
  __fence : pvdrm_fence
  ret : Int
deriving DecidableEq, Repr

/-- The shared page, `struct pvdrm_mapped`. `count` is an `atomic_t`. -/
structure pvdrm_mapped where
  count : Int
  slot : Nat → pvdrm_slot
  ring : Nat → Nat

/-- The pool, `struct pvdrm_slots`: the semaphore count, the grant reference and
the shared page. -/
structure pvdrm_slots where
  sema : Nat
  ref : Int
  mapped : pvdrm_mapped

/-- How a call into the pool ends: it returns, a `BUG_ON` fires, or `down` finds
the semaphore at zero and the caller sleeps. -/
inductive outcome (α : Type) where
  | ok (a : α)
  | bug
  | blocked

/-! ## Slot pool: operations -/

def extract_mapped (slots : pvdrm_slots) : pvdrm_mapped := slots.mapped

def is_used (K : slot_consts) (slot : pvdrm_slot) : Bool :=
  slot.code != K.PVDRM_UNUSED

/-- The value `(uint32_t)-1`. -/
def ring_empty : Nat := ((-1 : Int) % 2 ^ 32).toNat

/-- A page as `get_zeroed_page` returns it. -/
def zeroed_page : pvdrm_mapped :=
  { count := 0
    slot := fun _ => { __id := 0, code := 0, __fence := pvdrm_fence.Pending, ret := 0 }
    ring := fun _ => 0 }

/-- The body of the initialisation loop at index `i`. -/
def init_slot (K : slot_consts) (mapped : pvdrm_mapped) (i : Nat) : pvdrm_mapped :=
  let slot := mapped.slot i
  let slot := { slot with __id := i }
  let slot := { slot with code := K.PVDRM_UNUSED }
  { mapped with
    slot := Function.update mapped.slot i slot
    ring := Function.update mapped.ring i ring_empty }

/-- The loop `for (i = 0; i < n; ++i)` of `pvdrm_slot_init`: iterations
`0, 1, ..., n - 1` in this order. -/
def init_loop (K : slot_consts) (mapped : pvdrm_mapped) : Nat → pvdrm_mapped
  | 0 => mapped
  | n + 1 => init_slot K (init_loop K mapped n) n

/-- What the environment answers during `pvdrm_slot_init`. -/
structure init_env where
  kzalloc_ok : Bool
  page_ok : Bool
  grant : Int
deriving DecidableEq, Repr

def ENOMEM : Int := 12

/-- The function `pvdrm_slot_init`: the returned code and the pool that
`pvdrm->slots` points to with a mapped page, if any. -/
def pvdrm_slot_init (K : slot_consts) (env : init_env) : Int × Option pvdrm_slots :=
  if !env.kzalloc_ok then (-ENOMEM, none)
  else
    let sema := K.PVDRM_SLOT_NR
    if !env.page_ok then (-ENOMEM, none)
    else
      let ret := env.grant
      if ret < 0 then (ret, none)
      else
        let mapped := zeroed_page
        let mapped := { mapped with count := 0 }
        let mapped := init_loop K mapped K.PVDRM_SLOT_NR
        (0, some { sema := sema, ref := ret, mapped := mapped })

/-- The scan of `pvdrm_slot_alloc`,
`for (; i < PVDRM_SLOT_NR; ++i) if (!is_used(&mapped->slot[i])) break;`,
with `n` the number of indices left: it returns `i` as it is at the loop exit. -/
def alloc_scan (K : slot_consts) (mapped : pvdrm_mapped) : Nat → Nat → Nat
  | 0, i => i
  | n + 1, i => if !is_used K (mapped.slot i) then i else alloc_scan K mapped n (i + 1)

/-- The function `pvdrm_slot_alloc`: the index of the returned slot and the pool
afterwards. -/
def pvdrm_slot_alloc (K : slot_consts) (slots : pvdrm_slots) : outcome (Nat × pvdrm_slots) :=
  let mapped := extract_mapped slots
  match slots.sema with
  | 0 => outcome.blocked
  | sema + 1 =>
    let i := alloc_scan K mapped K.PVDRM_SLOT_NR 0
    if i = K.PVDRM_SLOT_NR then outcome.bug
    else
      let slot := mapped.slot i
      let slot := { slot with code := K.PVDRM_HELD }
      let slot := { slot with __fence := pvdrm_fence_init slot.__fence }
      let slot := { slot with ret := 0 }
      outcome.ok (i, { slots with
        sema := sema
        mapped := { mapped with slot := Function.update mapped.slot i slot } })

/-- The function `pvdrm_slot_free` on the slot at index `i`. -/
def pvdrm_slot_free (K : slot_consts) (slots : pvdrm_slots) (i : Nat) : outcome pvdrm_slots :=
  let mapped := extract_mapped slots
  let slot := mapped.slot i
  if !is_used K slot then outcome.bug
  else
    let slot := { slot with code := K.PVDRM_UNUSED }
    outcome.ok { slots with
      sema := slots.sema + 1
      mapped := { mapped with slot := Function.update mapped.slot i slot } }

/-- The operation `atomic_inc` on a 32-bit `atomic_t`: it wraps. -/
def atomic_inc (v : Int) : Int := (v + 1 + 2 ^ 31) % 2 ^ 32 - 2 ^ 31

/-- The function `pvdrm_slot_request` on the slot at index `i`. The argument
`pvdrm_fence_wait` stands for the wait on the slot's fence: given the shared page
at the time the wait starts, it gives the code the wait returns and the shared
page as the back end left it when the wait ended. The result is the returned
value and the pool afterwards. -/
def pvdrm_slot_request (K : slot_consts) (pvdrm_fence_wait : pvdrm_mapped → Int × pvdrm_mapped)
    (slots : pvdrm_slots) (i : Nat) : outcome (Int × pvdrm_slots) :=
  let mapped := extract_mapped slots
  if !is_used K (mapped.slot i) then outcome.bug
  else
    let mapped := { mapped with count := atomic_inc mapped.count }
    let (ret, mapped) := pvdrm_fence_wait mapped
    if ret != 0 then outcome.ok (ret, { slots with mapped := mapped })
    else outcome.ok ((mapped.slot i).ret, { slots with mapped := mapped })

/-! ## Slot pool: runs of `alloc` and `free` -/

/-- Number of slots of the array whose state is not `PVDRM_UNUSED`. -/
def used_count (K : slot_consts) (mapped : pvdrm_mapped) : Nat :=
  (List.range K.PVDRM_SLOT_NR).countP (fun i => is_used K (mapped.slot i))

/-- Number of slots of the array whose state is `PVDRM_HELD`. -/
def held_count (K : slot_consts) (mapped : pvdrm_mapped) : Nat :=
  (List.range K.PVDRM_SLOT_NR).countP (fun i => (mapped.slot i).code == K.PVDRM_HELD)

/-- A call of a client of the pool. -/
inductive slot_call where
  | alloc
  | free (i : Nat)
deriving DecidableEq, Repr

/-- One call of a well-behaved client. The second component lists the slots that
`alloc` returned and that were not freed since. An `alloc` is taken only when
the semaphore count is positive, a `free` only on a listed slot; `none` says the
call is not taken, or that it does not return. -/
def client_step (K : slot_consts) (st : pvdrm_slots × List Nat) :
    slot_call → Option (pvdrm_slots × List Nat)
  | slot_call.alloc =>
    if st.1.sema = 0 then none
    else
      match pvdrm_slot_alloc K st.1 with
      | outcome.ok (i, slots) => some (slots, i :: st.2)
      | _ => none
  | slot_call.free i =>
    if i ∈ st.2 then
      match pvdrm_slot_free K st.1 i with
      | outcome.ok slots => some (slots, st.2.erase i)
      | _ => none
    else none

/-- A sequence of calls of a well-behaved client. -/
def client_run (K : slot_consts) (st : pvdrm_slots × List Nat) :
    List slot_call → Option (pvdrm_slots × List Nat)
  | [] => some st
  | c :: cs =>
    match client_step K st c with
    | some st1 => client_run K st1 cs
    | none => none

/-- The slot as `pvdrm_slot_alloc` hands it out. -/
def held_slot (K : slot_consts) (slot : pvdrm_slot) : pvdrm_slot :=
  { __id := slot.__id, code := K.PVDRM_HELD, __fence := pvdrm_fence.Pending, ret := 0 }

/-- The invariant of the runs of a well-behaved client: the listed slots are
distinct slots of the array in state `PVDRM_HELD`, every slot in use is in state
`PVDRM_HELD`, and the slots in use and the semaphore count add up to the
capacity. -/
def pool_inv (K : slot_consts) (st : pvdrm_slots × List Nat) : Prop :=
  st.2.Nodup ∧
  (∀ i ∈ st.2, i < K.PVDRM_SLOT_NR ∧ (st.1.mapped.slot i).code = K.PVDRM_HELD) ∧
  (∀ i, i < K.PVDRM_SLOT_NR → is_used K (st.1.mapped.slot i) = true →
    (st.1.mapped.slot i).code = K.PVDRM_HELD) ∧
  used_count K st.1.mapped + st.1.sema = K.PVDRM_SLOT_NR

/-- The build-time check `BUILD_BUG_ON(condition)` of the kernel: the build breaks
when the condition is true. The value says whether the build goes through. -/
def BUILD_BUG_ON (condition : Bool) : Bool := !condition

/-- The build-time check of `pvdrm_slot_init`,
`BUILD_BUG_ON(sizeof(struct pvdrm_mapped) <= PAGE_SIZE)`, as a function of the
two sizes. -/
def slot_init_build_check (sizeof_pvdrm_mapped PAGE_SIZE : Nat) : Bool :=
  BUILD_BUG_ON (decide (sizeof_pvdrm_mapped ≤ PAGE_SIZE))

/-- The holder of slot `i` leaves fence `f` and result `r` in it. -/
def slot_left_with (slots : pvdrm_slots) (i : Nat) (f : pvdrm_fence) (r : Int) : pvdrm_slots :=
  { slots with
    mapped := { slots.mapped with
      slot := Function.update slots.mapped.slot i
        ({ slots.mapped.slot i with __fence := f, ret := r }) } }

/-- A back end that serves slot `i` at once: it stores `V` in the slot, signals
the fence, and the wait returns `w`. -/
def backend_stub (i : Nat) (V w : Int) (mapped : pvdrm_mapped) : Int × pvdrm_mapped :=
  (w, { mapped with
        slot := Function.update mapped.slot i
          ({ mapped.slot i with __fence := pvdrm_fence.Signaled, ret := V }) })

/-! ### Concrete data for the instances -/

def K2 : slot_consts := { PVDRM_SLOT_NR := 2, PVDRM_UNUSED := 0, PVDRM_HELD := 1 }

def env_ok : init_env := { kzalloc_ok := true, page_ok := true, grant := 7 }

/-- The pool `pvdrm_slot_init K2 env_ok` builds. -/
def pool2 : pvdrm_slots :=
  { sema := 2, ref := 7, mapped := init_loop K2 zeroed_page 2 }

/-- The state after `alloc, alloc, free 0` from `pool2`. -/
def pool2_after : pvdrm_slots × List Nat :=
  match client_run K2 (pool2, []) [slot_call.alloc, slot_call.alloc, slot_call.free 0] with
  | some st => st
  | none => (pool2, [])

/-- A pool whose slot 0 carries a code that is neither `PVDRM_UNUSED` nor
`PVDRM_HELD`, and whose fence and result are left over from an earlier use. -/
def pool_stale : pvdrm_slots :=
  { sema := 1, ref := 7,
    mapped := { count := 5,
                slot := fun i => { __id := i, code := if i = 0 then 2 else 0,
                                   __fence := pvdrm_fence.Signaled, ret := -5 },
                ring := fun _ => ring_empty } }

/-! ## Handle table of the back end: data model -/

def EAGAIN : Int := 11

/-- The list head `vmas` of an entry: as `kzalloc` leaves it, with both pointers
NULL, or initialised and carrying the addresses of the vmas linked into it. -/
inductive list_head where
  | zeroed
  | linked (vmas : List Nat)
deriving DecidableEq, Repr

/-- The fields of `struct pvdrm_back_file` other than the back pointer `info`;
the device an entry belongs to is passed along with the entry. -/
structure pvdrm_back_file where
  filp : Int
  handle : Int
  vmas : list_head
deriving DecidableEq, Repr

/-- The device of the back end, `struct pvdrm_back_device`: the idr `file_idr`
maps an id to the pointer stored under it. -/
structure pvdrm_back_device where
  file_idr : Int → Option Nat

/-- The calls into the kernel that the two functions make, in the order made. -/
inductive back_effect where
  | filp_open
  | kzalloc
  | idr_pre_get
  | idr_get_new_above (starting_id : Int)
  | filp_close (filp : Int)
  | idr_remove (id : Int)
  | vma_destroy (vma : Nat)
  | kfree (ptr : Nat)
deriving DecidableEq, Repr

/-- What the kernel answers during `pvdrm_back_file_new`: the result of
`filp_open`, the address `kzalloc` returns if any, the result of `idr_pre_get`,
and what `idr_get_new_above` answers at the attempt number `k` (from 0) when it
is called on the idr given with the starting id given: the code it returns with
the id it stores on success. -/
structure back_env where
  filp_open : Int
  kzalloc : Option Nat
  idr_pre_get : Int
  idr_get_new_above : Nat → (Int → Option Nat) → Int → Int × Int

/-- How a function of the back end ends: it returns, or it dereferences a NULL
pointer; both with the state reached. -/
inductive back_outcome (α : Type) where
  | done (a : α)
  | oops (a : α)

/-- The state a call ended in. -/
def back_outcome.state {α : Type} : back_outcome α → α
  | back_outcome.done a => a
  | back_outcome.oops a => a

/-- Number of `idr_get_new_above` attempts in a log. -/
def attempts (log : List back_effect) : Nat :=
  log.countP (fun e => match e with
    | back_effect.idr_get_new_above _ => true
    | _ => false)

/-! ## Handle table of the back end: operations -/

def idr_find (idr : Int → Option Nat) (id : Int) : Option Nat := idr id

def idr_remove (idr : Int → Option Nat) (id : Int) : Int → Option Nat :=
  Function.update idr id none

/-- The function `pvdrm_back_file_lookup`: the pointer found, or `none` for NULL,
and the device afterwards. -/
def pvdrm_back_file_lookup (info : pvdrm_back_device) (handle : Int) :
    Option Nat × pvdrm_back_device :=
  let file := idr_find info.file_idr handle
  match file with
  | none => (none, info)
  | some file => (some file, info)

/-- The function `pvdrm_back_file_destroy` on the entry at `file` (`none` is the
NULL pointer) of device `info`, appending to `log`.
`list_for_each_entry_safe` over a list head that was never initialised reads
through its NULL `next` pointer; over an initialised one it visits every vma
linked in, and `pvdrm_back_vma_destroy` unlinks the vma it is given. -/
def pvdrm_back_file_destroy (info : pvdrm_back_device) (file : Option (Nat × pvdrm_back_file))
    (log : List back_effect) : back_outcome (pvdrm_back_device × List back_effect) :=
  match file with
  | none => back_outcome.done (info, log)
  | some (ptr, file) =>
    let log := log ++ [back_effect.filp_close file.filp]
    let (info, log) :=
      if file.handle > 0 then
        ({ info with file_idr := idr_remove info.file_idr file.handle },
          log ++ [back_effect.idr_remove file.handle])
      else (info, log)
    match file.vmas with
    | list_head.zeroed => back_outcome.oops (info, log)
    | list_head.linked vmas =>
      let log := log ++ vmas.map back_effect.vma_destroy
      let log := log ++ [back_effect.kfree ptr]
      back_outcome.done (info, log)

/-- The loop of `pvdrm_back_file_new` at the label `again`, entered for attempt
number `k`: `none` when `fuel` attempts did not end it, else the last `ret`, the
entry, the device and the log. The allocator is called on `info->file_idr` with
the starting id `PVDRM_FILE_GLOBAL_HANDLE + 1`. A successful `idr_get_new_above`
stores the pointer under the id it picked and writes the id to
`pvfile->handle`. -/
def assign_handle (PVDRM_FILE_GLOBAL_HANDLE : Int)
    (answers : Nat → (Int → Option Nat) → Int → Int × Int) (ptr : Nat) :
    Nat → Nat → pvdrm_back_file → pvdrm_back_device → List back_effect →
      Option (Int × pvdrm_back_file × pvdrm_back_device × List back_effect)
  | 0, _, _, _, _ => none
  | fuel + 1, k, pvfile, info, log =>
    let ret := (answers k info.file_idr (PVDRM_FILE_GLOBAL_HANDLE + 1)).1
    let log := log ++ [back_effect.idr_get_new_above (PVDRM_FILE_GLOBAL_HANDLE + 1)]
    if ret = -EAGAIN then
      assign_handle PVDRM_FILE_GLOBAL_HANDLE answers ptr fuel (k + 1) pvfile info log
    else if ret = 0 then
      some (ret,
        { pvfile with
          handle := (answers k info.file_idr (PVDRM_FILE_GLOBAL_HANDLE + 1)).2 },
        { info with
          file_idr := Function.update info.file_idr
            (answers k info.file_idr (PVDRM_FILE_GLOBAL_HANDLE + 1)).2 (some ptr) }, log)
    else some (ret, pvfile, info, log)

/-- The failure exit of `pvdrm_back_file_new`:
`pvdrm_back_file_destroy(pvfile); return NULL;`. -/
def destroy_return_null (info : pvdrm_back_device) (ptr : Nat) (pvfile : pvdrm_back_file)
    (log : List back_effect) :
    back_outcome (Option (Nat × pvdrm_back_file) × pvdrm_back_device × List back_effect) :=
  match pvdrm_back_file_destroy info (some (ptr, pvfile)) log with
  | back_outcome.done (info, log) => back_outcome.done (none, info, log)
  | back_outcome.oops (info, log) => back_outcome.oops (none, info, log)

/-- The function `pvdrm_back_file_new`: `none` when `fuel` attempts did not end
the loop at `again`; else the returned entry with its address (`none` is NULL),
the device and the log of the calls made. -/
def pvdrm_back_file_new (PVDRM_FILE_GLOBAL_HANDLE : Int) (env : back_env) (fuel : Nat)
    (info : pvdrm_back_device) :
    Option (back_outcome
      (Option (Nat × pvdrm_back_file) × pvdrm_back_device × List back_effect)) :=
  let filp := env.filp_open
  let log := [back_effect.filp_open, back_effect.kzalloc]
  match env.kzalloc with
  | none => some (back_outcome.done (none, info, log))
  | some ptr =>
    let pvfile : pvdrm_back_file := { filp := filp, handle := 0, vmas := list_head.zeroed }
    let log := log ++ [back_effect.idr_pre_get]
    if env.idr_pre_get = 0 then some (destroy_return_null info ptr pvfile log)
    else
      match assign_handle PVDRM_FILE_GLOBAL_HANDLE env.idr_get_new_above ptr fuel 0
          pvfile info log with
      | none => none
      | some (ret, pvfile, info, log) =>
        if ret ≠ 0 then some (destroy_return_null info ptr pvfile log)
        else
          let pvfile := { pvfile with vmas := list_head.linked [] }
          some (back_outcome.done (some (ptr, pvfile), info, log))

/-! ### Concrete data for the instances of the back end -/

/-- An allocator that reports `-EAGAIN` twice and then assigns the id 5. -/
def answers_twice_eagain (k : Nat) : Int × Int :=
  if k < 2 then (-EAGAIN, 0) else (0, 5)

def env_twice_eagain : back_env :=
  { filp_open := 100, kzalloc := some 64, idr_pre_get := 1,
    idr_get_new_above := fun k _ _ => answers_twice_eagain k }

def device_empty : pvdrm_back_device := { file_idr := fun _ => none }

/-! ### Failing environments of the back end -/

/-- The kernel's `IS_ERR`: a pointer in the last 4095 addresses encodes an error
number. -/
def IS_ERR (ptr : Int) : Bool := decide (-4095 ≤ ptr ∧ ptr < 0)

def ENOENT : Int := 2

def ENOSPC : Int := 28

/-- The device cannot be opened (`filp_open` returns `ERR_PTR(-ENOENT)`); the
allocations succeed and the id 5 is assigned at the first attempt. -/
def env_open_fails : back_env :=
  { filp_open := -ENOENT, kzalloc := some 64, idr_pre_get := 1,
    idr_get_new_above := fun _ _ _ => (0, 5) }

/-- The entry cannot be allocated: `kzalloc` returns NULL. -/
def env_kzalloc_fails : back_env :=
  { filp_open := 100, kzalloc := none, idr_pre_get := 1,
    idr_get_new_above := fun _ _ _ => (0, 5) }

/-- The allocator cannot be refilled: `idr_pre_get` returns 0. -/
def env_pre_get_fails : back_env :=
  { filp_open := 100, kzalloc := some 64, idr_pre_get := 0,
    idr_get_new_above := fun _ _ _ => (0, 5) }

/-- The handle assignment fails with `-ENOSPC`. -/
def env_assign_fails : back_env :=
  { filp_open := 100, kzalloc := some 64, idr_pre_get := 1,
    idr_get_new_above := fun _ _ _ => (-ENOSPC, 0) }

/-- The entry as `pvdrm_back_file_new` has it when it takes a failure exit:
allocated by `kzalloc`, `filp` stored, `handle` 0, `vmas` not yet initialised. -/
def entry_at_failure_exit : pvdrm_back_file :=
  { filp := 100, handle := 0, vmas := list_head.zeroed }

/-- A table that maps the handle 3 to the pointer 32. -/
def device_one : pvdrm_back_device :=
  { file_idr := fun h => if h = 3 then some 32 else none }

/-- An allocator with memory at hand that assigns the starting id when it is not
in use, else the next id when that one is not in use, and else reports
`-ENOSPC`. -/
def idr_next_free (_k : Nat) (idr : Int → Option Nat) (starting_id : Int) : Int × Int :=
  if idr starting_id = none then (0, starting_id)
  else if idr (starting_id + 1) = none then (0, starting_id + 1)
  else (-ENOSPC, 0)

def env_next_free : back_env :=
  { filp_open := 100, kzalloc := some 64, idr_pre_get := 1,
    idr_get_new_above := idr_next_free }

/-! ## Slot pool: runs with requests -/

/-- A call into the pool; a `request` comes with the behaviour of the wait on the
fence during that call. -/
inductive pool_op where
  | alloc
  | free (i : Nat)
  | request (i : Nat) (pvdrm_fence_wait : pvdrm_mapped → Int × pvdrm_mapped)

/-- One call into the pool; `none` when the call does not return. -/
def pool_step (K : slot_consts) (slots : pvdrm_slots) : pool_op → Option pvdrm_slots
  | pool_op.alloc =>
    match pvdrm_slot_alloc K slots with
    | outcome.ok (_, slots1) => some slots1
    | _ => none
  | pool_op.free i =>
    match pvdrm_slot_free K slots i with
    | outcome.ok slots1 => some slots1
    | _ => none
  | pool_op.request i pvdrm_fence_wait =>
    match pvdrm_slot_request K pvdrm_fence_wait slots i with
    | outcome.ok (_, slots1) => some slots1
    | _ => none

/-- A sequence of calls into the pool, each returning. -/
def pool_run (K : slot_consts) (slots : pvdrm_slots) : List pool_op → Option pvdrm_slots
  | [] => some slots
  | op :: ops =>
    match pool_step K slots op with
    | some slots1 => pool_run K slots1 ops
    | none => none

/-- Number of requests submitted in a sequence of calls. -/
def requests : List pool_op → Nat
  | [] => 0
  | pool_op.request _ _ :: ops => requests ops + 1
  | _ :: ops => requests ops

/-- The back end leaves `count` alone during every wait of the sequence. -/
def waits_keep_count : List pool_op → Prop
  | [] => True
  | pool_op.request _ pvdrm_fence_wait :: ops =>
    (∀ mapped, (pvdrm_fence_wait mapped).2.count = mapped.count) ∧ waits_keep_count ops
  | _ :: ops => waits_keep_count ops

/-- A value as a 32-bit `int` holds it. -/
def wrap32 (x : Int) : Int := (x + 2 ^ 31) % 2 ^ 32 - 2 ^ 31

/-- A pool whose counter is at `INT_MAX` and whose slot 0 is in state
`PVDRM_HELD`. -/
def pool_count_max : pvdrm_slots :=
  { sema := 1, ref := 7,
    mapped := { count := 2147483647,
                slot := fun i => { __id := i, code := if i = 0 then 1 else 0,
                                   __fence := pvdrm_fence.Pending, ret := 0 },
                ring := fun _ => ring_empty } }

/-- The calls alloc, request on slot 0 served with the value 42, free of slot 0. -/
def ops_one_cycle : List pool_op :=
  [pool_op.alloc, pool_op.request 0 (backend_stub 0 42 0), pool_op.free 0]

/-- The pool after `ops_one_cycle` from `pool2`. -/
def pool2_cycled : pvdrm_slots :=
  match pool_run K2 pool2 ops_one_cycle with
  | some slots => slots
  | none => pool2

/-! ## Slot pool: auxiliary facts -/

theorem is_used_iff (K : slot_consts) (s : pvdrm_slot) :
    is_used K s = true ↔ s.code ≠ K.PVDRM_UNUSED := by
  simp [is_used]

theorem is_used_false_iff (K : slot_consts) (s : pvdrm_slot) :
    is_used K s = false ↔ s.code = K.PVDRM_UNUSED := by
  simp [is_used]

/-- The scan stops inside `[i, i + n]`, every slot it passed is in use, and when
it stops before `i + n` it stops on a slot that is not in use. -/
theorem alloc_scan_spec (K : slot_consts) (mapped : pvdrm_mapped) (n : Nat) :
    ∀ i, i ≤ alloc_scan K mapped n i ∧ alloc_scan K mapped n i ≤ i + n ∧
      (∀ j, i ≤ j → j < alloc_scan K mapped n i → is_used K (mapped.slot j) = true) ∧
      (alloc_scan K mapped n i < i + n →
        is_used K (mapped.slot (alloc_scan K mapped n i)) = false) := by
  induction n with
  | zero =>
    intro i
    simp only [alloc_scan]
    refine ⟨le_refl _, le_refl _, ?_, ?_⟩
    · intro j h1 h2; omega
    · intro h; omega
  | succ n ih =>
    intro i
    simp only [alloc_scan]
    by_cases hu : is_used K (mapped.slot i) = true
    · simp only [hu, Bool.not_true, Bool.false_eq_true, if_false]
      obtain ⟨h1, h2, h3, h4⟩ := ih (i + 1)
      refine ⟨by omega, by omega, ?_, ?_⟩
      · intro j hj1 hj2
        by_cases hji : j = i
        · subst hji; exact hu
        · exact h3 j (by omega) hj2
      · intro h; exact h4 (by omega)
    · have hu2 : is_used K (mapped.slot i) = false := by simpa using hu
      simp only [hu2, Bool.not_false, if_true]
      refine ⟨le_refl _, by omega, ?_, ?_⟩
      · intro j h1 h2; omega
      · intro _; trivial

/-- A slot that is not in use at an index from `i` on makes the scan stop at
that index at the latest. -/
theorem alloc_scan_finds (K : slot_consts) (mapped : pvdrm_mapped) (n i j : Nat)
    (hij : i ≤ j) (hj : is_used K (mapped.slot j) = false) :
    alloc_scan K mapped n i ≤ j := by
  by_contra hlt
  have h := (alloc_scan_spec K mapped n i).2.2.1 j hij (by omega)
  rw [hj] at h
  exact Bool.false_ne_true h

/-- Counting over `range n` when the predicate changes at one index only. -/
theorem countP_range_change (p q : Nat → Bool) (i : Nat) (hpq : ∀ j, j ≠ i → q j = p j) :
    ∀ n, i < n →
      (List.range n).countP q + (if p i = true then 1 else 0)
        = (List.range n).countP p + (if q i = true then 1 else 0) := by
  have hsame : ∀ n, n ≤ i → (List.range n).countP q = (List.range n).countP p := by
    intro n hn
    apply List.countP_congr
    intro j hj
    have hjn : j < n := List.mem_range.mp hj
    have hji : j ≠ i := by omega
    rw [hpq j hji]
  intro n
  induction n with
  | zero => intro h; omega
  | succ n ih =>
    intro hin
    rw [List.range_succ, List.countP_append, List.countP_append]
    by_cases hi : i = n
    · subst hi
      rw [hsame i (le_refl _)]
      simp only [List.countP_singleton]
      by_cases hp : p i = true <;> by_cases hq : q i = true <;> simp [hp, hq]
    · have hlt : i < n := by omega
      have h := ih hlt
      simp only [List.countP_singleton]
      rw [hpq n (fun hh => hi hh.symm)]
      omega

theorem countP_range_le (p : Nat → Bool) (n : Nat) : (List.range n).countP p ≤ n := by
  have h := List.countP_le_length p (l := List.range n)
  simpa using h

/-- Effect of `init_loop` on the cells below the bound. -/
theorem init_loop_spec (K : slot_consts) (mapped : pvdrm_mapped) (n : Nat) :
    (init_loop K mapped n).count = mapped.count ∧
    (∀ i, i < n → ((init_loop K mapped n).slot i).__id = i ∧
      ((init_loop K mapped n).slot i).code = K.PVDRM_UNUSED ∧
      (init_loop K mapped n).ring i = ring_empty) ∧
    (∀ i, n ≤ i → (init_loop K mapped n).slot i = mapped.slot i ∧
      (init_loop K mapped n).ring i = mapped.ring i) := by
  induction n with
  | zero =>
    refine ⟨rfl, ?_, ?_⟩
    · intro i hi; omega
    · intro i _; exact ⟨rfl, rfl⟩
  | succ n ih =>
    obtain ⟨h1, h2, h3⟩ := ih
    refine ⟨?_, ?_, ?_⟩
    · simpa [init_loop, init_slot] using h1
    · intro i hi
      by_cases hin : i = n
      · subst hin
        simp [init_loop, init_slot]
      · have hlt : i < n := by omega
        simpa [init_loop, init_slot, Function.update_noteq hin] using h2 i hlt
    · intro i hi
      have hne : i ≠ n := by omega
      simpa [init_loop, init_slot, Function.update_noteq hne] using h3 i (by omega)

/-- What a returning `pvdrm_slot_alloc` did. -/
theorem alloc_ok_spec (K : slot_consts) (slots slots1 : pvdrm_slots) (i : Nat)
    (h : pvdrm_slot_alloc K slots = outcome.ok (i, slots1)) :
    i = alloc_scan K slots.mapped K.PVDRM_SLOT_NR 0 ∧ i < K.PVDRM_SLOT_NR ∧
    is_used K (slots.mapped.slot i) = false ∧
    (∀ j, j < i → is_used K (slots.mapped.slot j) = true) ∧
    slots.sema = slots1.sema + 1 ∧ slots1.ref = slots.ref ∧
    slots1.mapped.count = slots.mapped.count ∧ slots1.mapped.ring = slots.mapped.ring ∧
    slots1.mapped.slot
      = Function.update slots.mapped.slot i (held_slot K (slots.mapped.slot i)) := by
  unfold pvdrm_slot_alloc at h
  simp only [extract_mapped] at h
  split at h
  · cases h
  · rename_i sema hs
    obtain ⟨h1, h2, h3, h4⟩ := alloc_scan_spec K slots.mapped K.PVDRM_SLOT_NR 0
    by_cases hN : alloc_scan K slots.mapped K.PVDRM_SLOT_NR 0 = K.PVDRM_SLOT_NR
    · rw [if_pos hN] at h; cases h
    · rw [if_neg hN] at h
      injection h with h
      injection h with hi hp
      subst hi
      subst hp
      have hlt : alloc_scan K slots.mapped K.PVDRM_SLOT_NR 0 < K.PVDRM_SLOT_NR := by omega
      refine ⟨rfl, hlt, h4 (by omega), ?_, hs, rfl, rfl, rfl, rfl⟩
      intro j hj
      exact h3 j (Nat.zero_le _) hj

/-- With a unit of the semaphore and a slot of the array that is not in use,
`pvdrm_slot_alloc` returns. -/
theorem alloc_returns (K : slot_consts) (slots : pvdrm_slots) (j : Nat)
    (hsema : 0 < slots.sema) (hj : j < K.PVDRM_SLOT_NR)
    (hu : is_used K (slots.mapped.slot j) = false) :
    ∃ i slots1, pvdrm_slot_alloc K slots = outcome.ok (i, slots1) := by
  have hle := alloc_scan_finds K slots.mapped K.PVDRM_SLOT_NR 0 j (Nat.zero_le _) hu
  have hne : alloc_scan K slots.mapped K.PVDRM_SLOT_NR 0 ≠ K.PVDRM_SLOT_NR := by omega
  obtain ⟨n, hn⟩ : ∃ n, slots.sema = n + 1 := ⟨slots.sema - 1, by omega⟩
  unfold pvdrm_slot_alloc
  simp only [extract_mapped]
  rw [hn]
  simp only [if_neg hne]
  exact ⟨_, _, rfl⟩

/-- What a returning `pvdrm_slot_free` did. -/
theorem free_ok_spec (K : slot_consts) (slots slots1 : pvdrm_slots) (i : Nat)
    (h : pvdrm_slot_free K slots i = outcome.ok slots1) :
    is_used K (slots.mapped.slot i) = true ∧
    slots1.sema = slots.sema + 1 ∧ slots1.ref = slots.ref ∧
    slots1.mapped.count = slots.mapped.count ∧ slots1.mapped.ring = slots.mapped.ring ∧
    slots1.mapped.slot = Function.update slots.mapped.slot i
      { slots.mapped.slot i with code := K.PVDRM_UNUSED } := by
  unfold pvdrm_slot_free at h
  simp only [extract_mapped] at h
  by_cases hu : is_used K (slots.mapped.slot i) = true
  · simp only [hu, Bool.not_true, Bool.false_eq_true, if_false] at h
    injection h with h
    subst h
    exact ⟨hu, rfl, rfl, rfl, rfl, rfl⟩
  · have hu2 : is_used K (slots.mapped.slot i) = false := by simpa using hu
    simp [hu2] at h

/-- On a slot that is in use `pvdrm_slot_free` returns. -/
theorem free_returns (K : slot_consts) (slots : pvdrm_slots) (i : Nat)
    (h : (slots.mapped.slot i).code ≠ K.PVDRM_UNUSED) :
    ∃ slots1, pvdrm_slot_free K slots i = outcome.ok slots1 ∧
      (slots1.mapped.slot i).code = K.PVDRM_UNUSED ∧
      slots1.sema = slots.sema + 1 := by
  have hu := (is_used_iff K _).mpr h
  unfold pvdrm_slot_free
  simp only [extract_mapped, hu, Bool.not_true, Bool.false_eq_true, if_false]
  refine ⟨_, rfl, ?_, rfl⟩
  simp

/-- The count of slots in use after one slot of the array was rewritten. -/
theorem used_count_update (K : slot_consts) (mapped mapped1 : pvdrm_mapped) (i : Nat)
    (s : pvdrm_slot) (hi : i < K.PVDRM_SLOT_NR)
    (hslot : mapped1.slot = Function.update mapped.slot i s) :
    used_count K mapped1 + (if is_used K (mapped.slot i) = true then 1 else 0)
      = used_count K mapped + (if is_used K s = true then 1 else 0) := by
  have h := countP_range_change (fun j => is_used K (mapped.slot j))
    (fun j => is_used K (mapped1.slot j)) i
    (by intro j hj; simp [hslot, Function.update_noteq hj]) K.PVDRM_SLOT_NR hi
  have hs : is_used K (mapped1.slot i) = is_used K s := by simp [hslot]
  simp only [hs] at h
  exact h

/-- What a successful `pvdrm_slot_init` built. -/
theorem init_ok_spec (K : slot_consts) (env : init_env) (slots : pvdrm_slots)
    (h : pvdrm_slot_init K env = (0, some slots)) :
    slots.sema = K.PVDRM_SLOT_NR ∧ slots.ref = env.grant ∧
    slots.mapped = init_loop K zeroed_page K.PVDRM_SLOT_NR := by
  unfold pvdrm_slot_init at h
  by_cases h1 : env.kzalloc_ok = true
  · by_cases h2 : env.page_ok = true
    · by_cases h3 : env.grant < 0
      · simp [h1, h2, h3] at h
      · simp only [h1, h2, h3, Bool.not_true, Bool.false_eq_true, if_false] at h
        injection h with _ h
        injection h with h
        subst h
        exact ⟨rfl, rfl, rfl⟩
    · simp [h1, h2] at h
  · simp [h1] at h

theorem pool_inv_init (K : slot_consts) (env : init_env) (slots : pvdrm_slots)
    (h : pvdrm_slot_init K env = (0, some slots)) : pool_inv K (slots, []) := by
  obtain ⟨hs, _, hm⟩ := init_ok_spec K env slots h
  have hcode : ∀ i, i < K.PVDRM_SLOT_NR → is_used K (slots.mapped.slot i) = false := by
    intro i hi
    rw [hm, is_used_false_iff]
    exact ((init_loop_spec K zeroed_page K.PVDRM_SLOT_NR).2.1 i hi).2.1
  refine ⟨List.nodup_nil, ?_, ?_, ?_⟩
  · intro i hi; cases hi
  · intro i hi hu
    rw [hcode i hi] at hu
    exact absurd hu Bool.false_ne_true
  · have hz : used_count K slots.mapped = 0 := by
      unfold used_count
      rw [List.countP_eq_zero]
      intro i hi
      have := hcode i (List.mem_range.mp hi)
      simp [this]
    show used_count K slots.mapped + slots.sema = K.PVDRM_SLOT_NR
    omega

theorem pool_inv_step (K : slot_consts) (hne : K.PVDRM_UNUSED ≠ K.PVDRM_HELD)
    (st st1 : pvdrm_slots × List Nat) (c : slot_call)
    (hinv : pool_inv K st) (hstep : client_step K st c = some st1) : pool_inv K st1 := by
  obtain ⟨hnd, hlive, hheld, hcnt⟩ := hinv
  cases c with
  | alloc =>
    simp only [client_step] at hstep
    split at hstep
    · cases hstep
    · split at hstep
      · rename_i i slots1 ha
        injection hstep with hstep
        subst hstep
        obtain ⟨_, hi, hu, _, hsema, _, _, _, hslot⟩ := alloc_ok_spec K st.1 slots1 i ha
        have hnotin : i ∉ st.2 := by
          intro hmem
          have hc := (hlive i hmem).2
          rw [is_used_false_iff] at hu
          exact hne (hu.symm.trans hc)
        have hupd := used_count_update K st.1.mapped slots1.mapped i _ hi hslot
        have hused : is_used K (held_slot K (st.1.mapped.slot i)) = true := by
          rw [is_used_iff]; exact fun h => hne h.symm
        rw [hu, hused] at hupd
        simp only [Bool.false_eq_true, if_false, if_true] at hupd
        refine ⟨List.nodup_cons.mpr ⟨hnotin, hnd⟩, ?_, ?_, ?_⟩
        · intro j hj
          show j < K.PVDRM_SLOT_NR ∧ (slots1.mapped.slot j).code = K.PVDRM_HELD
          rw [hslot]
          rcases List.mem_cons.mp hj with hji | hjl
          · subst hji
            simp [hi, held_slot]
          · have hji : j ≠ i := fun hh => hnotin (hh ▸ hjl)
            rw [Function.update_noteq hji]
            exact hlive j hjl
        · intro j hj
          show is_used K (slots1.mapped.slot j) = true → (slots1.mapped.slot j).code = K.PVDRM_HELD
          rw [hslot]
          by_cases hji : j = i
          · subst hji
            simp [held_slot]
          · rw [Function.update_noteq hji]
            exact hheld j hj
        · show used_count K slots1.mapped + slots1.sema = K.PVDRM_SLOT_NR
          omega
      · cases hstep
  | free i =>
    simp only [client_step] at hstep
    split at hstep
    · rename_i hmem
      split at hstep
      · rename_i slots1 hf
        injection hstep with hstep
        subst hstep
        obtain ⟨hu, hsema, _, _, _, hslot⟩ := free_ok_spec K st.1 slots1 i hf
        have hi := (hlive i hmem).1
        have hupd := used_count_update K st.1.mapped slots1.mapped i _ hi hslot
        have hunused : is_used K { st.1.mapped.slot i with code := K.PVDRM_UNUSED } = false := by
          rw [is_used_false_iff]
        rw [hu, hunused] at hupd
        simp only [Bool.false_eq_true, if_false, if_true] at hupd
        refine ⟨hnd.erase i, ?_, ?_, ?_⟩
        · intro j hj
          show j < K.PVDRM_SLOT_NR ∧ (slots1.mapped.slot j).code = K.PVDRM_HELD
          have hjl : j ∈ st.2 := List.mem_of_mem_erase hj
          have hji : j ≠ i := by
            intro hh
            subst hh
            exact (List.Nodup.not_mem_erase hnd) hj
          rw [hslot, Function.update_noteq hji]
          exact hlive j hjl
        · intro j hj
          show is_used K (slots1.mapped.slot j) = true → (slots1.mapped.slot j).code = K.PVDRM_HELD
          rw [hslot]
          by_cases hji : j = i
          · subst hji
            simp [is_used]
          · rw [Function.update_noteq hji]
            exact hheld j hj
        · show used_count K slots1.mapped + slots1.sema = K.PVDRM_SLOT_NR
          omega
      · cases hstep
    · cases hstep

theorem pool_inv_run (K : slot_consts) (hne : K.PVDRM_UNUSED ≠ K.PVDRM_HELD)
    (calls : List slot_call) :
    ∀ st st1 : pvdrm_slots × List Nat, pool_inv K st →
      client_run K st calls = some st1 → pool_inv K st1 := by
  induction calls with
  | nil =>
    intro st st1 hinv hrun
    simp only [client_run] at hrun
    injection hrun with hrun
    subst hrun
    exact hinv
  | cons c cs ih =>
    intro st st1 hinv hrun
    simp only [client_run] at hrun
    split at hrun
    · rename_i st2 hstep
      exact ih st2 st1 (pool_inv_step K hne st st2 c hinv hstep) hrun
    · cases hrun

/-- Under the invariant the slots in state `PVDRM_HELD` are the slots in use. -/
theorem held_count_eq_used_count (K : slot_consts) (hne : K.PVDRM_UNUSED ≠ K.PVDRM_HELD)
    (st : pvdrm_slots × List Nat) (hinv : pool_inv K st) :
    held_count K st.1.mapped = used_count K st.1.mapped := by
  unfold held_count used_count
  apply List.countP_congr
  intro i hi
  have hlt := List.mem_range.mp hi
  constructor
  · intro h
    have hc : (st.1.mapped.slot i).code = K.PVDRM_HELD := by simpa using h
    rw [is_used_iff, hc]
    exact fun hh => hne hh.symm
  · intro h
    have hc := hinv.2.2.1 i hlt h
    simp [hc]

theorem alloc_blocked_iff (K : slot_consts) (slots : pvdrm_slots) :
    pvdrm_slot_alloc K slots = outcome.blocked ↔ slots.sema = 0 := by
  unfold pvdrm_slot_alloc
  simp only [extract_mapped]
  constructor
  · intro h
    split at h
    · assumption
    · split at h <;> cases h
  · intro h
    rw [h]

theorem used_count_lt_of_unused (K : slot_consts) (mapped : pvdrm_mapped) (j : Nat)
    (hj : j < K.PVDRM_SLOT_NR) (hu : is_used K (mapped.slot j) = false) :
    used_count K mapped < K.PVDRM_SLOT_NR := by
  have h := countP_range_change (fun i => is_used K (mapped.slot i))
    (fun i => if i = j then true else is_used K (mapped.slot i)) j
    (by intro i hi; simp [hi]) K.PVDRM_SLOT_NR hj
  have hle := countP_range_le (fun i => if i = j then true else is_used K (mapped.slot i))
    K.PVDRM_SLOT_NR
  simp only [hu, Bool.false_eq_true, if_false, if_true] at h
  unfold used_count
  omega

/-! ## Slot pool: main results -/

/-- C1: in every state a well-behaved client reaches from a successfully
initialised pool (alloc taken only with a positive semaphore count, free only on
slots alloc returned and that were not freed since), the slots that are not
Unused and the semaphore count add up to PVDRM_SLOT_NR; the Held slots are at
most PVDRM_SLOT_NR; and alloc blocks, that is the semaphore count is 0, exactly
when PVDRM_SLOT_NR slots are Held. -/
theorem slot_accounting (K : slot_consts) (hne : K.PVDRM_UNUSED ≠ K.PVDRM_HELD)
    (env : init_env) (slots0 : pvdrm_slots)
    (hinit : pvdrm_slot_init K env = (0, some slots0))
    (calls : List slot_call) (slots : pvdrm_slots) (live : List Nat)
    (hrun : client_run K (slots0, []) calls = some (slots, live)) :
    used_count K slots.mapped + slots.sema = K.PVDRM_SLOT_NR ∧
    held_count K slots.mapped ≤ K.PVDRM_SLOT_NR ∧
    (slots.sema = 0 ↔ held_count K slots.mapped = K.PVDRM_SLOT_NR) ∧
    (pvdrm_slot_alloc K slots = outcome.blocked ↔
      held_count K slots.mapped = K.PVDRM_SLOT_NR) := by
  have hinv := pool_inv_run K hne calls (slots0, []) (slots, live)
    (pool_inv_init K env slots0 hinit) hrun
  have hhu := held_count_eq_used_count K hne (slots, live) hinv
  have hcnt : used_count K slots.mapped + slots.sema = K.PVDRM_SLOT_NR := hinv.2.2.2
  simp only at hhu
  refine ⟨hcnt, by omega, by omega, ?_⟩
  rw [alloc_blocked_iff]
  omega

/-- An instance of C1: capacity 2, the calls alloc, alloc, free 0. -/
theorem slot_accounting_witness :
    K2.PVDRM_UNUSED ≠ K2.PVDRM_HELD ∧
    pvdrm_slot_init K2 env_ok = (0, some pool2) ∧
    client_run K2 (pool2, []) [slot_call.alloc, slot_call.alloc, slot_call.free 0]
      = some (pool2_after.1, pool2_after.2) ∧
    (used_count K2 pool2_after.1.mapped + pool2_after.1.sema = K2.PVDRM_SLOT_NR ∧
     held_count K2 pool2_after.1.mapped ≤ K2.PVDRM_SLOT_NR ∧
     (pool2_after.1.sema = 0 ↔ held_count K2 pool2_after.1.mapped = K2.PVDRM_SLOT_NR) ∧
     (pvdrm_slot_alloc K2 pool2_after.1 = outcome.blocked ↔
       held_count K2 pool2_after.1.mapped = K2.PVDRM_SLOT_NR)) :=
  ⟨by decide, rfl, rfl,
   slot_accounting K2 (by decide) env_ok pool2 rfl
     [slot_call.alloc, slot_call.alloc, slot_call.free 0] pool2_after.1 pool2_after.2 rfl⟩

/-- C2: in a pool state with a slot of the array that is Unused, whatever the
fence and the result of the slots hold from earlier uses, pvdrm_slot_alloc
returns as soon as a unit of the semaphore is there, and the slot it returns is
a slot of the array in state Held, with a freshly initialised (unsignaled) fence
and result 0. -/
theorem alloc_returns_fresh_held (K : slot_consts) (slots : pvdrm_slots) (j : Nat)
    (hj : j < K.PVDRM_SLOT_NR) (hu : (slots.mapped.slot j).code = K.PVDRM_UNUSED) :
    (0 < slots.sema → ∃ i slots1, pvdrm_slot_alloc K slots = outcome.ok (i, slots1)) ∧
    (∀ i slots1, pvdrm_slot_alloc K slots = outcome.ok (i, slots1) →
      i < K.PVDRM_SLOT_NR ∧
      (slots1.mapped.slot i).code = K.PVDRM_HELD ∧
      (slots1.mapped.slot i).__fence = pvdrm_fence_init (slots.mapped.slot i).__fence ∧
      (slots1.mapped.slot i).__fence = pvdrm_fence.Pending ∧
      (slots1.mapped.slot i).ret = 0) := by
  constructor
  · intro hsema
    exact alloc_returns K slots j hsema hj ((is_used_false_iff K _).mpr hu)
  · intro i slots1 h
    obtain ⟨_, hi, _, _, _, _, _, _, hslot⟩ := alloc_ok_spec K slots slots1 i h
    rw [hslot]
    simp [hi, held_slot, pvdrm_fence_init]

/-- An instance of C2: slot 1 of a pool whose slots carry a signaled fence and the
result -5 from an earlier use. -/
theorem alloc_returns_fresh_held_witness :
    (pool_stale.mapped.slot 1).__fence = pvdrm_fence.Signaled ∧
    (pool_stale.mapped.slot 1).ret = -5 ∧
    ∃ slots1, pvdrm_slot_alloc K2 pool_stale = outcome.ok (1, slots1) ∧
      (slots1.mapped.slot 1).code = K2.PVDRM_HELD ∧
      (slots1.mapped.slot 1).__fence = pvdrm_fence.Pending ∧
      (slots1.mapped.slot 1).ret = 0 := by
  have h := alloc_returns_fresh_held K2 pool_stale 1 (by decide) rfl
  obtain ⟨i, slots1, ha⟩ := h.1 (by decide)
  have hi : i = 1 := by
    have hs := (alloc_ok_spec K2 pool_stale slots1 i ha).1
    rw [hs]
    rfl
  subst hi
  obtain ⟨_, h2, _, h4, h5⟩ := h.2 1 slots1 ha
  exact ⟨rfl, rfl, slots1, ha, h2, h4, h5⟩

/-- C3, refuted as stated: slot 0 of the pool below carries the code 2, which is
not Held, and pvdrm_slot_free on it completes normally: it sets the slot to
Unused and releases a unit of the semaphore. -/
theorem free_accepts_not_held :
    (pool_stale.mapped.slot 0).code ≠ K2.PVDRM_HELD ∧
    ∃ slots1, pvdrm_slot_free K2 pool_stale 0 = outcome.ok slots1 ∧
      (slots1.mapped.slot 0).code = K2.PVDRM_UNUSED ∧
      slots1.sema = pool_stale.sema + 1 :=
  ⟨by decide, _, rfl, rfl, rfl⟩

/-- C3, amended: pvdrm_slot_free is rejected with a fatal abort exactly for a slot
whose state is Unused, and then nothing is set and no unit is released; for every
slot in another state, Held or not, it completes normally, sets the slot to
Unused and releases one unit of the semaphore. -/
theorem free_rejects_exactly_unused (K : slot_consts) (slots : pvdrm_slots) (i : Nat) :
    ((slots.mapped.slot i).code = K.PVDRM_UNUSED →
      pvdrm_slot_free K slots i = outcome.bug) ∧
    ((slots.mapped.slot i).code ≠ K.PVDRM_UNUSED →
      ∃ slots1, pvdrm_slot_free K slots i = outcome.ok slots1 ∧
        (slots1.mapped.slot i).code = K.PVDRM_UNUSED ∧
        slots1.sema = slots.sema + 1) ∧
    ((∃ slots1, pvdrm_slot_free K slots i = outcome.ok slots1) ↔
      (slots.mapped.slot i).code ≠ K.PVDRM_UNUSED) := by
  have hbug : (slots.mapped.slot i).code = K.PVDRM_UNUSED →
      pvdrm_slot_free K slots i = outcome.bug := by
    intro h
    have hu := (is_used_false_iff K _).mpr h
    unfold pvdrm_slot_free
    simp [extract_mapped, hu]
  have hok := free_returns K slots i
  refine ⟨hbug, hok, ?_⟩
  constructor
  · rintro ⟨slots1, h⟩ hc
    rw [hbug hc] at h
    cases h
  · intro h
    obtain ⟨slots1, h1, _⟩ := hok h
    exact ⟨slots1, h1⟩

/-- C4: for a Held slot and the value V the back end left in the slot when the
wait on its fence ended: when the wait returns 0, pvdrm_slot_request returns V;
when the wait returns an error e other than 0, pvdrm_slot_request returns e,
whatever the slot holds. -/
theorem request_returns_backend_value (K : slot_consts)
    (hne : K.PVDRM_UNUSED ≠ K.PVDRM_HELD)
    (pvdrm_fence_wait : pvdrm_mapped → Int × pvdrm_mapped)
    (slots : pvdrm_slots) (i : Nat) (V e : Int)
    (hheld : (slots.mapped.slot i).code = K.PVDRM_HELD)
    (hwait : (pvdrm_fence_wait
      { slots.mapped with count := atomic_inc slots.mapped.count }).1 = e)
    (hV : ((pvdrm_fence_wait
      { slots.mapped with count := atomic_inc slots.mapped.count }).2.slot i).ret = V) :
    (e = 0 → ∃ slots1, pvdrm_slot_request K pvdrm_fence_wait slots i = outcome.ok (V, slots1)) ∧
    (e ≠ 0 → ∃ slots1, pvdrm_slot_request K pvdrm_fence_wait slots i = outcome.ok (e, slots1)) := by
  have hu : is_used K (slots.mapped.slot i) = true := by
    rw [is_used_iff, hheld]
    exact fun h => hne h.symm
  constructor
  · intro he
    rw [he] at hwait
    unfold pvdrm_slot_request
    simp only [extract_mapped, hu, Bool.not_true, Bool.false_eq_true, if_false]
    simp only [hwait, bne_self_eq_false, Bool.false_eq_true, if_false, hV]
    exact ⟨_, rfl⟩
  · intro he
    unfold pvdrm_slot_request
    simp only [extract_mapped, hu, Bool.not_true, Bool.false_eq_true, if_false]
    have hb : (e != 0) = true := by simpa using he
    simp only [hwait, hb, if_true]
    exact ⟨_, rfl⟩

/-- An instance of C4: the back end stores 42 in the Held slot 1 and the wait
returns 0. -/
theorem request_returns_backend_value_witness :
    (pool2_after.1.mapped.slot 1).code = K2.PVDRM_HELD ∧
    ∃ slots1, pvdrm_slot_request K2 (backend_stub 1 42 0) pool2_after.1 1
      = outcome.ok (42, slots1) :=
  ⟨rfl, (request_returns_backend_value K2 (by decide) (backend_stub 1 42 0)
    pool2_after.1 1 42 0 rfl rfl rfl).1 rfl⟩

/-- Round trip on any pool with a unit of the semaphore and a slot of the array
that is not in use: alloc, an arbitrary fence and result left by the holder,
free, alloc. -/
theorem round_trip_of_sema (K : slot_consts) (hne : K.PVDRM_UNUSED ≠ K.PVDRM_HELD)
    (slots : pvdrm_slots) (j : Nat) (hsema : 0 < slots.sema) (hj : j < K.PVDRM_SLOT_NR)
    (hu : is_used K (slots.mapped.slot j) = false) :
    ∃ i slots1, pvdrm_slot_alloc K slots = outcome.ok (i, slots1) ∧
      ∀ (f : pvdrm_fence) (r : Int), ∃ slots2 slots3,
        pvdrm_slot_free K (slot_left_with slots1 i f r) i = outcome.ok slots2 ∧
        pvdrm_slot_alloc K slots2 = outcome.ok (i, slots3) ∧
        (slots3.mapped.slot i).code = K.PVDRM_HELD ∧
        (slots3.mapped.slot i).__fence = pvdrm_fence.Pending ∧
        (slots3.mapped.slot i).ret = 0 := by
  obtain ⟨i, slots1, ha⟩ := alloc_returns K slots j hsema hj hu
  refine ⟨i, slots1, ha, ?_⟩
  intro f r
  obtain ⟨_, hi, _, hbelow, _, _, _, _, hslot1⟩ := alloc_ok_spec K slots slots1 i ha
  have hcode1 : ((slot_left_with slots1 i f r).mapped.slot i).code ≠ K.PVDRM_UNUSED := by
    simp only [slot_left_with, Function.update_same, hslot1, held_slot]
    exact fun h => hne h.symm
  obtain ⟨slots2, hf, _, _⟩ := free_returns K _ i hcode1
  obtain ⟨_, hsema2, _, _, _, hslot2⟩ := free_ok_spec K _ slots2 i hf
  have hu2 : is_used K (slots2.mapped.slot i) = false := by
    rw [hslot2, Function.update_same, is_used_false_iff]
  have hother : ∀ k, k ≠ i → slots2.mapped.slot k = slots.mapped.slot k := by
    intro k hk
    rw [hslot2, Function.update_noteq hk]
    simp only [slot_left_with, Function.update_noteq hk, hslot1]
  obtain ⟨i2, slots3, ha2⟩ := alloc_returns K slots2 i (by omega) hi hu2
  obtain ⟨hscan, _, hu3, _, _, _, _, _, hslot3⟩ := alloc_ok_spec K slots2 slots3 i2 ha2
  have hle : i2 ≤ i := by
    rw [hscan]
    exact alloc_scan_finds K slots2.mapped K.PVDRM_SLOT_NR 0 i (Nat.zero_le _) hu2
  have heq : i2 = i := by
    by_contra hneq
    have hlt : i2 < i := by omega
    have h1 := hbelow i2 hlt
    rw [← hother i2 hneq, hu3] at h1
    exact Bool.false_ne_true h1
  subst heq
  refine ⟨slots2, slots3, hf, ha2, ?_, ?_, ?_⟩ <;> simp [hslot3, held_slot]

/-- C5: round trip. In every state a well-behaved client reaches from a
successfully initialised pool and that has an Unused slot in the array,
pvdrm_slot_alloc returns a slot; and whatever fence and result its holder leaves
in that slot, pvdrm_slot_free on it followed at once by pvdrm_slot_alloc returns
the same slot index, Held, with a fresh fence and result 0. -/
theorem alloc_free_alloc_same_slot (K : slot_consts) (hne : K.PVDRM_UNUSED ≠ K.PVDRM_HELD)
    (env : init_env) (slots0 : pvdrm_slots)
    (hinit : pvdrm_slot_init K env = (0, some slots0))
    (calls : List slot_call) (slots : pvdrm_slots) (live : List Nat)
    (hrun : client_run K (slots0, []) calls = some (slots, live))
    (j : Nat) (hj : j < K.PVDRM_SLOT_NR)
    (hu : (slots.mapped.slot j).code = K.PVDRM_UNUSED) :
    ∃ i slots1, pvdrm_slot_alloc K slots = outcome.ok (i, slots1) ∧
      ∀ (f : pvdrm_fence) (r : Int), ∃ slots2 slots3,
        pvdrm_slot_free K (slot_left_with slots1 i f r) i = outcome.ok slots2 ∧
        pvdrm_slot_alloc K slots2 = outcome.ok (i, slots3) ∧
        (slots3.mapped.slot i).code = K.PVDRM_HELD ∧
        (slots3.mapped.slot i).__fence = pvdrm_fence.Pending ∧
        (slots3.mapped.slot i).ret = 0 := by
  have hinv := pool_inv_run K hne calls (slots0, []) (slots, live)
    (pool_inv_init K env slots0 hinit) hrun
  have hcnt : used_count K slots.mapped + slots.sema = K.PVDRM_SLOT_NR := hinv.2.2.2
  have hu2 := (is_used_false_iff K _).mpr hu
  have hlt := used_count_lt_of_unused K slots.mapped j hj hu2
  exact round_trip_of_sema K hne slots j (by omega) hj hu2

/-- An instance of C5: after alloc, alloc, free 0 on a pool of capacity 2, slot 0
is Unused; the holder leaves a signaled fence and the result 9. -/
theorem alloc_free_alloc_same_slot_witness :
    (pool2_after.1.mapped.slot 0).code = K2.PVDRM_UNUSED ∧
    ∃ i slots1, pvdrm_slot_alloc K2 pool2_after.1 = outcome.ok (i, slots1) ∧
      ∃ slots2 slots3,
        pvdrm_slot_free K2 (slot_left_with slots1 i pvdrm_fence.Signaled 9) i
          = outcome.ok slots2 ∧
        pvdrm_slot_alloc K2 slots2 = outcome.ok (i, slots3) ∧
        (slots3.mapped.slot i).code = K2.PVDRM_HELD ∧
        (slots3.mapped.slot i).__fence = pvdrm_fence.Pending ∧
        (slots3.mapped.slot i).ret = 0 := by
  obtain ⟨i, slots1, ha, h⟩ := alloc_free_alloc_same_slot K2 (by decide) env_ok pool2 rfl
    [slot_call.alloc, slot_call.alloc, slot_call.free 0] pool2_after.1 pool2_after.2 rfl
    0 (by decide) rfl
  exact ⟨rfl, i, slots1, ha, h pvdrm_fence.Signaled 9⟩

/-- C6: whenever pvdrm_slot_init returns 0, the pool it built has the semaphore
count PVDRM_SLOT_NR, request_count 0, and for every index i below PVDRM_SLOT_NR
slot i has id i and state Unused and ring cell i holds 0xFFFFFFFF. -/
theorem init_establishes_pool (K : slot_consts) (env : init_env)
    (h : (pvdrm_slot_init K env).1 = 0) :
    ∃ slots, (pvdrm_slot_init K env).2 = some slots ∧
      slots.sema = K.PVDRM_SLOT_NR ∧ slots.mapped.count = 0 ∧
      ∀ i, i < K.PVDRM_SLOT_NR →
        (slots.mapped.slot i).__id = i ∧
        (slots.mapped.slot i).code = K.PVDRM_UNUSED ∧
        slots.mapped.ring i = 0xFFFFFFFF := by
  have hsome : ∃ slots, pvdrm_slot_init K env = (0, some slots) := by
    unfold pvdrm_slot_init at h ⊢
    by_cases h1 : env.kzalloc_ok = true
    · by_cases h2 : env.page_ok = true
      · by_cases h3 : env.grant < 0
        · simp only [h1, h2, h3, Bool.not_true, Bool.false_eq_true, if_false, if_true] at h
          omega
        · simp only [h1, h2, h3, Bool.not_true, Bool.false_eq_true, if_false]
          exact ⟨_, rfl⟩
      · simp [h1, h2, ENOMEM] at h
    · simp [h1, ENOMEM] at h
  obtain ⟨slots, hs⟩ := hsome
  obtain ⟨hsema, _, hm⟩ := init_ok_spec K env slots hs
  obtain ⟨hc, hcells, _⟩ := init_loop_spec K zeroed_page K.PVDRM_SLOT_NR
  refine ⟨slots, by rw [hs], hsema, ?_, ?_⟩
  · rw [hm, hc]; rfl
  · intro i hi
    rw [hm]
    obtain ⟨h1, h2, h3⟩ := hcells i hi
    refine ⟨h1, h2, ?_⟩
    rw [h3]
    decide

/-- An instance of C6: page and grant succeed, capacity 2. -/
theorem init_establishes_pool_witness :
    (pvdrm_slot_init K2 env_ok).1 = 0 ∧
    ∃ slots, (pvdrm_slot_init K2 env_ok).2 = some slots ∧
      slots.sema = K2.PVDRM_SLOT_NR ∧ slots.mapped.count = 0 ∧
      ∀ i, i < K2.PVDRM_SLOT_NR →
        (slots.mapped.slot i).__id = i ∧
        (slots.mapped.slot i).code = K2.PVDRM_UNUSED ∧
        slots.mapped.ring i = 0xFFFFFFFF :=
  ⟨rfl, init_establishes_pool K2 env_ok rfl⟩

/-- The build-time check of `pvdrm_slot_init` lets the build through exactly when
the shared region is larger than a page. -/
theorem build_check_iff (sizeof_pvdrm_mapped PAGE_SIZE : Nat) :
    slot_init_build_check sizeof_pvdrm_mapped PAGE_SIZE = true
      ↔ PAGE_SIZE < sizeof_pvdrm_mapped := by
  simp [slot_init_build_check, BUILD_BUG_ON]

/-- C7, as the code has it: a shared region of 64 bytes fits in a page of 4096
bytes and the build-time check of pvdrm_slot_init breaks the build; a region of
4097 bytes does not fit and the check lets the build through. -/
theorem build_check_rejects_fitting_layout :
    slot_init_build_check 64 4096 = false ∧ slot_init_build_check 4097 4096 = true := by
  decide

/-! ## Handle table of the back end: auxiliary facts -/

/-- As long as the allocator answers `-EAGAIN` the loop goes round: `n` such answers
use up `n` attempts. -/
theorem assign_handle_skip (G : Int)
    (answers : Nat → (Int → Option Nat) → Int → Int × Int) (ptr : Nat)
    (pvfile : pvdrm_back_file) (info : pvdrm_back_device) (n : Nat) :
    ∀ (fuel a : Nat) (log : List back_effect),
      (∀ j, j < n → (answers (a + j) info.file_idr (G + 1)).1 = -EAGAIN) →
      assign_handle G answers ptr (fuel + n) a pvfile info log
        = assign_handle G answers ptr fuel (a + n) pvfile info
            (log ++ List.replicate n (back_effect.idr_get_new_above (G + 1))) := by
  induction n with
  | zero => intro fuel a log _; simp
  | succ n ih =>
    intro fuel a log h
    have h0 : (answers a info.file_idr (G + 1)).1 = -EAGAIN := by
      simpa using h 0 (Nat.succ_pos n)
    have hrest : ∀ j, j < n → (answers (a + 1 + j) info.file_idr (G + 1)).1 = -EAGAIN := by
      intro j hj
      have := h (j + 1) (by omega)
      rwa [show a + (j + 1) = a + 1 + j by omega] at this
    rw [show fuel + (n + 1) = (fuel + n) + 1 by omega]
    simp only [assign_handle, h0, if_true]
    rw [ih fuel (a + 1) _ hrest]
    rw [show a + 1 + n = a + (n + 1) by omega, List.replicate_succ, List.append_assoc]
    rfl

theorem assign_handle_diverges (G : Int)
    (answers : Nat → (Int → Option Nat) → Int → Int × Int) (ptr : Nat)
    (pvfile : pvdrm_back_file) (info : pvdrm_back_device)
    (h : ∀ j, (answers j info.file_idr (G + 1)).1 = -EAGAIN) :
    ∀ (fuel a : Nat) (log : List back_effect),
      assign_handle G answers ptr fuel a pvfile info log = none := by
  intro fuel
  induction fuel with
  | zero => intro a log; rfl
  | succ fuel ih =>
    intro a log
    simp only [assign_handle, h a, if_true]
    exact ih _ _

/-- What the loop at `again` leaves when it ends. -/
theorem assign_handle_spec (G : Int)
    (answers : Nat → (Int → Option Nat) → Int → Int × Int) (ptr : Nat)
    (pvfile : pvdrm_back_file) (info : pvdrm_back_device) :
    ∀ (fuel a : Nat) (log : List back_effect) (ret : Int) (pvfile1 : pvdrm_back_file)
      (info1 : pvdrm_back_device) (log1 : List back_effect),
      assign_handle G answers ptr fuel a pvfile info log = some (ret, pvfile1, info1, log1) →
      (ret = 0 → ∃ k, (answers k info.file_idr (G + 1)).1 = 0 ∧
        pvfile1 = { pvfile with handle := (answers k info.file_idr (G + 1)).2 } ∧
        info1.file_idr
          = Function.update info.file_idr (answers k info.file_idr (G + 1)).2 (some ptr)) ∧
      (ret ≠ 0 → pvfile1 = pvfile ∧ info1.file_idr = info.file_idr) := by
  intro fuel
  induction fuel with
  | zero => intro a log ret pvfile1 info1 log1 h; cases h
  | succ fuel ih =>
    intro a log ret pvfile1 info1 log1 h
    simp only [assign_handle] at h
    by_cases h1 : (answers a info.file_idr (G + 1)).1 = -EAGAIN
    · rw [if_pos h1] at h
      exact ih _ _ _ _ _ _ h
    · rw [if_neg h1] at h
      by_cases h2 : (answers a info.file_idr (G + 1)).1 = 0
      · rw [if_pos h2] at h
        injection h with h
        injection h with hr h
        injection h with hf h
        injection h with hi hl
        subst hr hf hi
        exact ⟨fun _ => ⟨a, h2, rfl, rfl⟩, fun hne => absurd h2 hne⟩
      · rw [if_neg h2] at h
        injection h with h
        injection h with hr h
        injection h with hf h
        injection h with hi hl
        subst hr hf hi
        exact ⟨fun h0 => absurd h0 h2, fun _ => ⟨rfl, rfl⟩⟩

/-- The failure exit makes no attempt at a handle. -/
theorem attempts_destroy_return_null (info : pvdrm_back_device) (ptr : Nat)
    (pvfile : pvdrm_back_file) (log : List back_effect) :
    attempts (destroy_return_null info ptr pvfile log).state.2.2 = attempts log := by
  unfold destroy_return_null pvdrm_back_file_destroy
  cases hv : pvfile.vmas with
  | zeroed =>
    by_cases hh : pvfile.handle > 0 <;>
      simp [hv, hh, back_outcome.state, attempts, List.countP_append]
  | linked vmas =>
    by_cases hh : pvfile.handle > 0 <;>
      simp [hv, hh, back_outcome.state, attempts, List.countP_append, List.countP_eq_zero]

/-- What a call of `pvdrm_back_file_new` that returns an entry did. -/
theorem new_entry_spec (G : Int) (env : back_env) (fuel : Nat) (info info1 : pvdrm_back_device)
    (ptr : Nat) (file : pvdrm_back_file) (log : List back_effect)
    (h : pvdrm_back_file_new G env fuel info
      = some (back_outcome.done (some (ptr, file), info1, log))) :
    ∃ k, (env.idr_get_new_above k info.file_idr (G + 1)).1 = 0 ∧
      file = { filp := env.filp_open,
               handle := (env.idr_get_new_above k info.file_idr (G + 1)).2,
               vmas := list_head.linked [] } ∧
      info1.file_idr
        = Function.update info.file_idr
            (env.idr_get_new_above k info.file_idr (G + 1)).2 (some ptr) := by
  unfold pvdrm_back_file_new at h
  cases hz : env.kzalloc with
  | none => simp [hz] at h
  | some ptr0 =>
    simp only [hz] at h
    by_cases hp : env.idr_pre_get = 0
    · rw [if_pos hp] at h
      unfold destroy_return_null at h
      split at h <;> simp at h
    · rw [if_neg hp] at h
      split at h
      · cases h
      · rename_i ret pvfile1 info2 log1 ha
        by_cases hr : ret = 0
        · simp only [hr, ne_eq, not_true_eq_false, if_false] at h
          injection h with h
          injection h with h
          injection h with he h
          injection h with hi hl
          injection he with he
          injection he with hptr hfile
          obtain ⟨k, hk, hf, hidr⟩ := (assign_handle_spec G _ ptr0 _ info _ _ _ _ _ _ _ ha).1 hr
          refine ⟨k, hk, ?_, ?_⟩
          · rw [← hfile, hf]
          · rw [← hi, hidr, hptr]
        · simp only [ne_eq, hr, not_false_eq_true, if_true] at h
          unfold destroy_return_null at h
          split at h <;> simp at h

/-- The handle of a returned entry is above the reserved minimum when the
allocator assigns no id below the starting id. -/
theorem new_handle_gt (G : Int) (env : back_env) (fuel : Nat)
    (info info1 : pvdrm_back_device) (ptr : Nat) (file : pvdrm_back_file)
    (log : List back_effect)
    (hidr : ∀ k, (env.idr_get_new_above k info.file_idr (G + 1)).1 = 0 →
      G + 1 ≤ (env.idr_get_new_above k info.file_idr (G + 1)).2)
    (hnew : pvdrm_back_file_new G env fuel info
      = some (back_outcome.done (some (ptr, file), info1, log))) :
    G < file.handle := by
  obtain ⟨k, hk, hf, _⟩ := new_entry_spec G env fuel info info1 ptr file log hnew
  have h := hidr k hk
  rw [hf]
  show G < (env.idr_get_new_above k info.file_idr (G + 1)).2
  omega

/-! ## Handle table of the back end: main results -/

/-- C8, refuted as stated: with an allocator that reports -EAGAIN twice and then
assigns the id 5, pvdrm_back_file_new makes a third idr_get_new_above attempt and
returns the entry, where the specification has it give up with NULL after the
second. -/
theorem new_makes_third_attempt :
    (answers_twice_eagain 0).1 = -EAGAIN ∧ (answers_twice_eagain 1).1 = -EAGAIN ∧
    ∃ r, pvdrm_back_file_new 0 env_twice_eagain 10 device_empty = some (back_outcome.done r) ∧
      r.1 = some (64, { filp := 100, handle := 5, vmas := list_head.linked [] }) ∧
      attempts r.2.2 = 3 :=
  ⟨rfl, rfl, _, rfl, rfl, rfl⟩

/-- C8, amended: once the entry is allocated and idr_pre_get succeeded,
pvdrm_back_file_new retries the handle assignment every time the allocator
reports -EAGAIN, with no bound on the number of retries. When the first k answers
are -EAGAIN and the next one is not, it makes exactly k + 1 idr_get_new_above
attempts and stops retrying, and when that answer is 0 it returns the entry with
the assigned handle; when the allocator reports -EAGAIN on every attempt, it
never stops retrying. -/
theorem new_retries_on_every_eagain (G : Int) (env : back_env) (info : pvdrm_back_device)
    (ptr : Nat) (hz : env.kzalloc = some ptr) (hp : env.idr_pre_get ≠ 0) :
    (∀ k fuel,
      (∀ j, j < k → (env.idr_get_new_above j info.file_idr (G + 1)).1 = -EAGAIN) →
      (env.idr_get_new_above k info.file_idr (G + 1)).1 ≠ -EAGAIN → k < fuel →
      ∃ r, pvdrm_back_file_new G env fuel info = some r ∧
        attempts r.state.2.2 = k + 1 ∧
        ((env.idr_get_new_above k info.file_idr (G + 1)).1 = 0 →
          ∃ info1 log, r = back_outcome.done
            (some (ptr, { filp := env.filp_open,
                          handle := (env.idr_get_new_above k info.file_idr (G + 1)).2,
                          vmas := list_head.linked [] }), info1, log))) ∧
    ((∀ j, (env.idr_get_new_above j info.file_idr (G + 1)).1 = -EAGAIN) →
      ∀ fuel, pvdrm_back_file_new G env fuel info = none) := by
  constructor
  · intro k fuel hk hlast hfuel
    obtain ⟨m, hm⟩ : ∃ m, fuel = (m + 1) + k := ⟨fuel - k - 1, by omega⟩
    have hskip := assign_handle_skip G env.idr_get_new_above ptr
      { filp := env.filp_open, handle := 0, vmas := list_head.zeroed } info k (m + 1) 0
      ([back_effect.filp_open, back_effect.kzalloc] ++ [back_effect.idr_pre_get])
      (by intro j hj; simpa using hk j hj)
    unfold pvdrm_back_file_new
    simp only [hz, if_neg hp]
    rw [hm, hskip]
    simp only [Nat.zero_add, assign_handle, if_neg hlast]
    by_cases h0 : (env.idr_get_new_above k info.file_idr (G + 1)).1 = 0
    · simp only [h0, if_true, ne_eq, not_true_eq_false, if_false]
      refine ⟨_, rfl, ?_, fun _ => ⟨_, _, rfl⟩⟩
      simp [back_outcome.state, attempts, List.countP_append, List.countP_replicate]
    · rw [if_neg h0]
      simp only [ne_eq, h0, not_false_eq_true, if_true]
      refine ⟨_, rfl, ?_, fun h => h.elim⟩
      rw [attempts_destroy_return_null]
      simp [attempts, List.countP_append, List.countP_replicate]
  · intro h fuel
    unfold pvdrm_back_file_new
    simp only [hz, if_neg hp]
    rw [assign_handle_diverges G env.idr_get_new_above ptr _ info h]

/-- An instance of C8 as amended: two -EAGAIN answers, then the id 5. -/
theorem new_retries_on_every_eagain_witness :
    env_twice_eagain.kzalloc = some 64 ∧ env_twice_eagain.idr_pre_get ≠ 0 ∧
    ∃ r, pvdrm_back_file_new 0 env_twice_eagain 10 device_empty = some r ∧
      attempts r.state.2.2 = 2 + 1 ∧
      ((env_twice_eagain.idr_get_new_above 2 device_empty.file_idr (0 + 1)).1 = 0 →
        ∃ info1 log, r = back_outcome.done
          (some (64, { filp := env_twice_eagain.filp_open,
                       handle :=
                         (env_twice_eagain.idr_get_new_above 2 device_empty.file_idr (0 + 1)).2,
                       vmas := list_head.linked [] }), info1, log)) :=
  ⟨rfl, by decide,
   (new_retries_on_every_eagain 0 env_twice_eagain device_empty 64 rfl (by decide)).1 2 10
     (by decide) (by decide) (by decide)⟩

theorem answers_twice_eagain_above (k : Nat) :
    (answers_twice_eagain k).1 = 0 → (0 : Int) + 1 ≤ (answers_twice_eagain k).2 := by
  unfold answers_twice_eagain
  by_cases h : k < 2 <;> simp [h, EAGAIN]

/-- The allocator `idr_next_free` keeps the contract of `idr_get_new_above`: the
id it assigns is not below the starting id and is not in use in the idr. -/
theorem idr_next_free_contract (k : Nat) (idr : Int → Option Nat) (starting_id : Int)
    (h : (idr_next_free k idr starting_id).1 = 0) :
    starting_id ≤ (idr_next_free k idr starting_id).2 ∧
    idr (idr_next_free k idr starting_id).2 = none := by
  unfold idr_next_free at h ⊢
  by_cases h1 : idr starting_id = none
  · rw [if_pos h1]
    exact ⟨le_refl _, h1⟩
  · by_cases h2 : idr (starting_id + 1) = none
    · rw [if_neg h1, if_pos h2]
      exact ⟨by show starting_id ≤ starting_id + 1; omega, h2⟩
    · simp [h1, h2, ENOSPC] at h

/-- C9: every entry pvdrm_back_file_new returns carries a handle strictly greater
than PVDRM_FILE_GLOBAL_HANDLE, hence never 0 when that reserved minimum is not
negative, provided idr_get_new_above, on whatever idr and with whatever starting
id it is called, assigns no id below the starting id it is given. -/
theorem new_handle_above_reserved (G : Int) (env : back_env) (fuel : Nat)
    (info info1 : pvdrm_back_device) (ptr : Nat) (file : pvdrm_back_file)
    (log : List back_effect)
    (hidr : ∀ (k : Nat) (idr : Int → Option Nat) (starting_id : Int),
      (env.idr_get_new_above k idr starting_id).1 = 0 →
      starting_id ≤ (env.idr_get_new_above k idr starting_id).2)
    (hnew : pvdrm_back_file_new G env fuel info
      = some (back_outcome.done (some (ptr, file), info1, log))) :
    G < file.handle ∧ (0 ≤ G → file.handle ≠ 0) := by
  have h := new_handle_gt G env fuel info info1 ptr file log
    (fun k => hidr k info.file_idr (G + 1)) hnew
  constructor
  · exact h
  · intro hG
    omega

/-- An instance of C9: reserved minimum 2, the starting id 3 is in use, the
allocator assigns 4. -/
theorem new_handle_above_reserved_witness :
    ∃ info1 log, pvdrm_back_file_new 2 env_next_free 10 device_one
        = some (back_outcome.done
            (some (64, { filp := 100, handle := 4, vmas := list_head.linked [] }), info1, log)) ∧
      (2 : Int) < 4 ∧ ((0 : Int) ≤ 2 → (4 : Int) ≠ 0) :=
  ⟨_, _, rfl,
   new_handle_above_reserved 2 env_next_free 10 device_one _ 64
     { filp := 100, handle := 4, vmas := list_head.linked [] } _
     (fun k idr starting_id h => (idr_next_free_contract k idr starting_id h).1) rfl⟩

/-- C10: for an entry that pvdrm_back_file_new returned with handle h, and for
every state of the handle table and every list of vmas linked to the entry,
pvdrm_back_file_destroy returns, pvdrm_back_file_lookup of h afterwards gives NULL,
and the lookup of every other handle gives what it gave before; this with a
reserved minimum PVDRM_FILE_GLOBAL_HANDLE that is not negative and an allocator
that assigns no id below the starting id it is given. -/
theorem destroy_then_lookup_not_found (G : Int) (hG : 0 ≤ G) (env : back_env) (fuel : Nat)
    (info info1 : pvdrm_back_device) (ptr : Nat) (file : pvdrm_back_file)
    (log : List back_effect)
    (hidr : ∀ k, (env.idr_get_new_above k info.file_idr (G + 1)).1 = 0 →
      G + 1 ≤ (env.idr_get_new_above k info.file_idr (G + 1)).2)
    (hnew : pvdrm_back_file_new G env fuel info
      = some (back_outcome.done (some (ptr, file), info1, log)))
    (info2 : pvdrm_back_device) (vmas : List Nat) (log2 : List back_effect) :
    ∃ info3 log3,
      pvdrm_back_file_destroy info2 (some (ptr, { file with vmas := list_head.linked vmas })) log2
        = back_outcome.done (info3, log3) ∧
      (pvdrm_back_file_lookup info3 file.handle).1 = none ∧
      ∀ h, h ≠ file.handle →
        (pvdrm_back_file_lookup info3 h).1 = (pvdrm_back_file_lookup info2 h).1 := by
  have hpos : file.handle > 0 := by
    have := new_handle_gt G env fuel info info1 ptr file log hidr hnew
    omega
  have hlook : ∀ (d : pvdrm_back_device) (h : Int),
      (pvdrm_back_file_lookup d h).1 = d.file_idr h := by
    intro d h
    unfold pvdrm_back_file_lookup idr_find
    cases d.file_idr h <;> rfl
  unfold pvdrm_back_file_destroy
  simp only [hpos, if_true]
  refine ⟨_, _, rfl, ?_, ?_⟩
  · rw [hlook]
    simp [idr_remove]
  · intro h hne
    rw [hlook, hlook]
    simp [idr_remove, Function.update_noteq hne]

/-- An instance of C10: the entry with handle 5, destroyed with two vmas linked,
in the table that the insertion left. -/
theorem destroy_then_lookup_not_found_witness :
    ∃ info3 log3,
      pvdrm_back_file_destroy
          { file_idr := Function.update device_empty.file_idr 5 (some 64) }
          (some (64, { filp := 100, handle := 5, vmas := list_head.linked [7, 8] })) []
        = back_outcome.done (info3, log3) ∧
      (pvdrm_back_file_lookup info3 5).1 = none ∧
      ∀ h, h ≠ (5 : Int) →
        (pvdrm_back_file_lookup info3 h).1
          = (pvdrm_back_file_lookup
              { file_idr := Function.update device_empty.file_idr 5 (some 64) } h).1 :=
  destroy_then_lookup_not_found 0 (le_refl 0) env_twice_eagain 10 device_empty
    { file_idr := Function.update device_empty.file_idr 5 (some 64) } 64
    { filp := 100, handle := 5, vmas := list_head.linked [] }
    [back_effect.filp_open, back_effect.kzalloc, back_effect.idr_pre_get,
     back_effect.idr_get_new_above 1, back_effect.idr_get_new_above 1,
     back_effect.idr_get_new_above 1]
    answers_twice_eagain_above rfl
    { file_idr := Function.update device_empty.file_idr 5 (some 64) } [7, 8] []

/-! ## Slot pool: frame, counter and reachability of the assertion -/

/-- A count below the capacity leaves a slot of the array that is not in use. -/
theorem exists_unused_of_used_count_lt (K : slot_consts) (mapped : pvdrm_mapped)
    (h : used_count K mapped < K.PVDRM_SLOT_NR) :
    ∃ j, j < K.PVDRM_SLOT_NR ∧ is_used K (mapped.slot j) = false := by
  by_contra hno
  have hall : ∀ j ∈ List.range K.PVDRM_SLOT_NR,
      (fun i => is_used K (mapped.slot i)) j = true := by
    intro j hj
    have hlt := List.mem_range.mp hj
    by_contra hu
    exact hno ⟨j, hlt, by simpa using hu⟩
  have hc := List.countP_eq_length.mpr hall
  unfold used_count at h
  rw [hc, List.length_range] at h
  exact Nat.lt_irrefl _ h

/-- C14: in a pool state with an Unused slot in the array, pvdrm_slot_alloc
returns as soon as a unit of the semaphore is there; the slot it returns is the
Unused slot of smallest index; and it changes nothing else in the shared region:
every other slot is as before, every slot keeps its id, every ring cell and
request_count are as before, and the semaphore count drops by exactly one. -/
theorem alloc_first_unused_frame (K : slot_consts) (slots : pvdrm_slots) (j : Nat)
    (hj : j < K.PVDRM_SLOT_NR) (hu : (slots.mapped.slot j).code = K.PVDRM_UNUSED) :
    (0 < slots.sema → ∃ i slots1, pvdrm_slot_alloc K slots = outcome.ok (i, slots1)) ∧
    (∀ i slots1, pvdrm_slot_alloc K slots = outcome.ok (i, slots1) →
      i < K.PVDRM_SLOT_NR ∧
      (slots.mapped.slot i).code = K.PVDRM_UNUSED ∧
      (∀ k, k < i → (slots.mapped.slot k).code ≠ K.PVDRM_UNUSED) ∧
      (∀ k, k ≠ i → slots1.mapped.slot k = slots.mapped.slot k) ∧
      (∀ k, (slots1.mapped.slot k).__id = (slots.mapped.slot k).__id) ∧
      (∀ k, slots1.mapped.ring k = slots.mapped.ring k) ∧
      slots1.mapped.count = slots.mapped.count ∧
      slots1.sema + 1 = slots.sema) := by
  constructor
  · intro hsema
    exact alloc_returns K slots j hsema hj ((is_used_false_iff K _).mpr hu)
  · intro i slots1 h
    obtain ⟨_, hi, hui, hbelow, hsema, _, hcount, hring, hslot⟩ :=
      alloc_ok_spec K slots slots1 i h
    refine ⟨hi, (is_used_false_iff K _).mp hui, ?_, ?_, ?_, ?_, hcount, hsema.symm⟩
    · intro k hk
      exact (is_used_iff K _).mp (hbelow k hk)
    · intro k hk
      rw [hslot, Function.update_noteq hk]
    · intro k
      rw [hslot]
      by_cases hk : k = i
      · subst hk
        simp [held_slot]
      · rw [Function.update_noteq hk]
    · intro k
      rw [hring]

/-- An instance of C14: slot 0 carries a foreign code, slot 1 is the first Unused
one. -/
theorem alloc_first_unused_frame_witness :
    (pool_stale.mapped.slot 1).code = K2.PVDRM_UNUSED ∧
    ∃ slots1, pvdrm_slot_alloc K2 pool_stale = outcome.ok (1, slots1) ∧
      slots1.mapped.slot 0 = pool_stale.mapped.slot 0 ∧
      slots1.mapped.count = pool_stale.mapped.count ∧
      slots1.sema + 1 = pool_stale.sema := by
  have h := alloc_first_unused_frame K2 pool_stale 1 (by decide) rfl
  obtain ⟨i, slots1, ha⟩ := h.1 (by decide)
  have hi : i = 1 := by
    have hs := (alloc_ok_spec K2 pool_stale slots1 i ha).1
    rw [hs]
    rfl
  subst hi
  obtain ⟨_, _, _, h4, _, _, h7, h8⟩ := h.2 1 slots1 ha
  exact ⟨rfl, slots1, ha, h4 0 (by decide), h7, h8⟩

/-- C15: for every pool state and every slot in state Held, pvdrm_slot_free
returns, sets that slot's state to Unused and raises the semaphore count by
exactly one; every other slot, the id, fence and result of every slot, every
ring cell and request_count are as before. -/
theorem free_held_frame (K : slot_consts) (hne : K.PVDRM_UNUSED ≠ K.PVDRM_HELD)
    (slots : pvdrm_slots) (i : Nat)
    (hheld : (slots.mapped.slot i).code = K.PVDRM_HELD) :
    ∃ slots1, pvdrm_slot_free K slots i = outcome.ok slots1 ∧
      (slots1.mapped.slot i).code = K.PVDRM_UNUSED ∧
      slots1.sema = slots.sema + 1 ∧
      (∀ k, k ≠ i → slots1.mapped.slot k = slots.mapped.slot k) ∧
      (∀ k, (slots1.mapped.slot k).__id = (slots.mapped.slot k).__id ∧
        (slots1.mapped.slot k).ret = (slots.mapped.slot k).ret ∧
        (slots1.mapped.slot k).__fence = (slots.mapped.slot k).__fence) ∧
      (∀ k, slots1.mapped.ring k = slots.mapped.ring k) ∧
      slots1.mapped.count = slots.mapped.count := by
  have hcode : (slots.mapped.slot i).code ≠ K.PVDRM_UNUSED := by
    rw [hheld]
    exact fun h => hne h.symm
  obtain ⟨slots1, hf, hc, hs⟩ := free_returns K slots i hcode
  obtain ⟨_, _, _, hcount, hring, hslot⟩ := free_ok_spec K slots slots1 i hf
  refine ⟨slots1, hf, hc, hs, ?_, ?_, ?_, hcount⟩
  · intro k hk
    rw [hslot, Function.update_noteq hk]
  · intro k
    rw [hslot]
    by_cases hk : k = i
    · subst hk
      simp
    · rw [Function.update_noteq hk]
      exact ⟨rfl, rfl, rfl⟩
  · intro k
    rw [hring]

/-- An instance of C15: slot 1 is Held after alloc, alloc, free 0. -/
theorem free_held_frame_witness :
    (pool2_after.1.mapped.slot 1).code = K2.PVDRM_HELD ∧
    ∃ slots1, pvdrm_slot_free K2 pool2_after.1 1 = outcome.ok slots1 ∧
      (slots1.mapped.slot 1).code = K2.PVDRM_UNUSED ∧
      slots1.sema = pool2_after.1.sema + 1 ∧
      slots1.mapped.slot 0 = pool2_after.1.mapped.slot 0 := by
  obtain ⟨slots1, hf, hc, hs, hother, _⟩ :=
    free_held_frame K2 (by decide) pool2_after.1 1 rfl
  exact ⟨rfl, slots1, hf, hc, hs, hother 0 (by decide)⟩

/-- C17: the assertion `BUG_ON(i == PVDRM_SLOT_NR)` of pvdrm_slot_alloc does not
fire in any state a well-behaved client reaches from a successfully initialised
pool; and whenever a unit of the semaphore is there, the scan finds an Unused
slot and alloc returns it, a slot of the array. -/
theorem alloc_assertion_unreachable (K : slot_consts) (hne : K.PVDRM_UNUSED ≠ K.PVDRM_HELD)
    (env : init_env) (slots0 : pvdrm_slots)
    (hinit : pvdrm_slot_init K env = (0, some slots0))
    (calls : List slot_call) (slots : pvdrm_slots) (live : List Nat)
    (hrun : client_run K (slots0, []) calls = some (slots, live)) :
    pvdrm_slot_alloc K slots ≠ outcome.bug ∧
    (0 < slots.sema →
      ∃ i slots1, pvdrm_slot_alloc K slots = outcome.ok (i, slots1) ∧
        i < K.PVDRM_SLOT_NR ∧ (slots.mapped.slot i).code = K.PVDRM_UNUSED) := by
  have hinv := pool_inv_run K hne calls (slots0, []) (slots, live)
    (pool_inv_init K env slots0 hinit) hrun
  have hcnt : used_count K slots.mapped + slots.sema = K.PVDRM_SLOT_NR := hinv.2.2.2
  have hret : 0 < slots.sema →
      ∃ i slots1, pvdrm_slot_alloc K slots = outcome.ok (i, slots1) ∧
        i < K.PVDRM_SLOT_NR ∧ (slots.mapped.slot i).code = K.PVDRM_UNUSED := by
    intro hsema
    obtain ⟨j, hj, hu⟩ := exists_unused_of_used_count_lt K slots.mapped (by omega)
    obtain ⟨i, slots1, ha⟩ := alloc_returns K slots j hsema hj hu
    obtain ⟨_, hi, hui, _⟩ := alloc_ok_spec K slots slots1 i ha
    exact ⟨i, slots1, ha, hi, (is_used_false_iff K _).mp hui⟩
  refine ⟨?_, hret⟩
  intro hbug
  by_cases hsema : slots.sema = 0
  · rw [(alloc_blocked_iff K slots).mpr hsema] at hbug
    cases hbug
  · obtain ⟨i, slots1, ha, _⟩ := hret (by omega)
    rw [ha] at hbug
    cases hbug

/-- An instance of C17: the state after alloc, alloc, free 0 on a pool of
capacity 2. -/
theorem alloc_assertion_unreachable_witness :
    0 < pool2_after.1.sema ∧
    pvdrm_slot_alloc K2 pool2_after.1 ≠ outcome.bug ∧
    ∃ i slots1, pvdrm_slot_alloc K2 pool2_after.1 = outcome.ok (i, slots1) ∧
      i < K2.PVDRM_SLOT_NR ∧ (pool2_after.1.mapped.slot i).code = K2.PVDRM_UNUSED := by
  have h := alloc_assertion_unreachable K2 (by decide) env_ok pool2 rfl
    [slot_call.alloc, slot_call.alloc, slot_call.free 0] pool2_after.1 pool2_after.2 rfl
  exact ⟨by decide, h.1, h.2 (by decide)⟩

/-! ### The request counter -/

theorem atomic_inc_wrap32 (n : Int) : atomic_inc (wrap32 n) = wrap32 (n + 1) := by
  unfold atomic_inc wrap32
  norm_num
  omega

theorem wrap32_of_small (n : Int) (h0 : 0 ≤ n) (h1 : n < 2 ^ 31) : wrap32 n = n := by
  unfold wrap32
  norm_num at h1 ⊢
  omega

/-- What a returning `pvdrm_slot_request` did to the pool. -/
theorem request_ok_spec (K : slot_consts) (pvdrm_fence_wait : pvdrm_mapped → Int × pvdrm_mapped)
    (slots slots1 : pvdrm_slots) (i : Nat) (r : Int)
    (h : pvdrm_slot_request K pvdrm_fence_wait slots i = outcome.ok (r, slots1)) :
    is_used K (slots.mapped.slot i) = true ∧ slots1.sema = slots.sema ∧
    slots1.mapped
      = (pvdrm_fence_wait { slots.mapped with count := atomic_inc slots.mapped.count }).2 := by
  unfold pvdrm_slot_request at h
  simp only [extract_mapped] at h
  by_cases hu : is_used K (slots.mapped.slot i) = true
  · simp only [hu, Bool.not_true, Bool.false_eq_true, if_false] at h
    refine ⟨hu, ?_⟩
    split at h <;>
    · injection h with h
      injection h with _ h
      subst h
      exact ⟨rfl, rfl⟩
  · have hu2 : is_used K (slots.mapped.slot i) = false := by simpa using hu
    simp [hu2] at h

/-- On a slot in use `pvdrm_slot_request` returns. -/
theorem request_returns (K : slot_consts) (pvdrm_fence_wait : pvdrm_mapped → Int × pvdrm_mapped)
    (slots : pvdrm_slots) (i : Nat) (hu : is_used K (slots.mapped.slot i) = true) :
    ∃ r slots1, pvdrm_slot_request K pvdrm_fence_wait slots i = outcome.ok (r, slots1) := by
  unfold pvdrm_slot_request
  simp only [extract_mapped, hu, Bool.not_true, Bool.false_eq_true, if_false]
  split
  · exact ⟨_, _, rfl⟩
  · exact ⟨_, _, rfl⟩

/-- The counter after one call. -/
theorem pool_step_count (K : slot_consts) (slots slots1 : pvdrm_slots) (op : pool_op)
    (hkeep : waits_keep_count [op]) (h : pool_step K slots op = some slots1) :
    slots1.mapped.count
      = if requests [op] = 1 then atomic_inc slots.mapped.count else slots.mapped.count := by
  cases op with
  | alloc =>
    simp only [pool_step] at h
    split at h
    · rename_i i s ha
      injection h with h
      subst h
      simpa [requests] using (alloc_ok_spec K slots s i ha).2.2.2.2.2.2.1
    · cases h
  | free i =>
    simp only [pool_step] at h
    split at h
    · rename_i s hf
      injection h with h
      subst h
      simpa [requests] using (free_ok_spec K slots s i hf).2.2.2.1
    · cases h
  | request i w =>
    simp only [pool_step] at h
    split at h
    · rename_i r s hr
      injection h with h
      subst h
      have hm := (request_ok_spec K w slots s i r hr).2.2
      simp only [requests, if_true]
      rw [hm, hkeep.1]
    · cases h

/-- The counter after a run that starts with the counter at `wrap32 n`. -/
theorem pool_run_count (K : slot_consts) (ops : List pool_op) :
    ∀ (slots slots1 : pvdrm_slots) (n : Int), slots.mapped.count = wrap32 n →
      waits_keep_count ops → pool_run K slots ops = some slots1 →
      slots1.mapped.count = wrap32 (n + requests ops) := by
  induction ops with
  | nil =>
    intro slots slots1 n hc _ h
    simp only [pool_run] at h
    injection h with h
    subst h
    simpa [requests] using hc
  | cons op ops ih =>
    intro slots slots1 n hc hkeep h
    simp only [pool_run] at h
    split at h
    · rename_i s hstep
      cases op with
      | alloc =>
        have hs := pool_step_count K slots s pool_op.alloc trivial hstep
        simp only [requests] at hs
        have := ih s slots1 n (by simpa [hc] using hs) hkeep h
        simpa [requests] using this
      | free i =>
        have hs := pool_step_count K slots s (pool_op.free i) trivial hstep
        simp only [requests] at hs
        have := ih s slots1 n (by simpa [hc] using hs) hkeep h
        simpa [requests] using this
      | request i w =>
        have hs := pool_step_count K slots s (pool_op.request i w) ⟨hkeep.1, trivial⟩ hstep
        simp only [requests, if_true] at hs
        rw [hc, atomic_inc_wrap32] at hs
        have := ih s slots1 (n + 1) hs hkeep.2 h
        rw [this]
        congr 1
        simp only [requests]
        push_cast
        ring
    · cases h

theorem pool_run_append (K : slot_consts) (ops1 ops2 : List pool_op) :
    ∀ slots slots2 : pvdrm_slots, pool_run K slots (ops1 ++ ops2) = some slots2 →
      ∃ slots1, pool_run K slots ops1 = some slots1 ∧
        pool_run K slots1 ops2 = some slots2 := by
  induction ops1 with
  | nil => intro slots slots2 h; exact ⟨slots, rfl, h⟩
  | cons op ops ih =>
    intro slots slots2 h
    rw [List.cons_append] at h
    cases hstep : pool_step K slots op with
    | none => simp [pool_run, hstep] at h
    | some s =>
      simp only [pool_run, hstep] at h ⊢
      exact ih s slots2 h

theorem requests_append (ops1 ops2 : List pool_op) :
    requests (ops1 ++ ops2) = requests ops1 + requests ops2 := by
  induction ops1 with
  | nil => simp [requests]
  | cons op ops ih =>
    cases op with
    | alloc => simpa [requests] using ih
    | free i => simpa [requests] using ih
    | request i w =>
      rw [List.cons_append]
      simp only [requests]
      rw [ih]
      omega

theorem waits_keep_count_left (ops1 ops2 : List pool_op)
    (h : waits_keep_count (ops1 ++ ops2)) : waits_keep_count ops1 := by
  induction ops1 with
  | nil => trivial
  | cons op ops ih =>
    cases op with
    | alloc => exact ih h
    | free i => exact ih h
    | request i w => exact ⟨h.1, ih h.2⟩

theorem atomic_inc_of_small (v : Int) (h0 : -2 ^ 31 ≤ v) (h1 : v < 2 ^ 31 - 1) :
    atomic_inc v = v + 1 := by
  unfold atomic_inc
  norm_num at h0 h1 ⊢
  omega

/-- C16, refuted as stated: with request_count at 2147483647 a request on the Held
slot 0, during which the back end leaves the counter alone, returns and leaves
request_count at -2147483648: not one more than before, and smaller than
before. -/
theorem request_count_wraps :
    (pool_count_max.mapped.slot 0).code = K2.PVDRM_HELD ∧
    pool_count_max.mapped.count = 2147483647 ∧
    ∃ r slots1, pvdrm_slot_request K2 (backend_stub 0 42 0) pool_count_max 0
        = outcome.ok (r, slots1) ∧
      slots1.mapped.count = -2147483648 ∧
      slots1.mapped.count ≠ pool_count_max.mapped.count + 1 ∧
      slots1.mapped.count < pool_count_max.mapped.count :=
  ⟨rfl, rfl, _, _, rfl, by decide, by decide, by decide⟩

/-- C16, amended: request_count is a 32-bit atomic_t that pvdrm_slot_request
increments once and nothing decrements. A request on a Held slot, the back end
leaving the counter alone during the wait, returns and replaces the counter c by
c + 1 wrapped to 32 bits, which is c + 1 for c below 2147483647; alloc and free
leave it unchanged. So after any sequence of calls following init the counter is
the number of requests submitted wrapped to 32 bits; as long as fewer than 2^31
requests were submitted it is that number, and it is not smaller than it was at
any earlier point of the sequence. -/
theorem request_count_tracks_requests (K : slot_consts) (env : init_env)
    (slots0 : pvdrm_slots) (hinit : pvdrm_slot_init K env = (0, some slots0))
    (ops : List pool_op) (slots : pvdrm_slots)
    (hkeep : waits_keep_count ops) (hrun : pool_run K slots0 ops = some slots) :
    (∀ (s : pvdrm_slots) (i : Nat) (w : pvdrm_mapped → Int × pvdrm_mapped),
      K.PVDRM_UNUSED ≠ K.PVDRM_HELD → (s.mapped.slot i).code = K.PVDRM_HELD →
      (∀ mapped, (w mapped).2.count = mapped.count) →
      ∃ r s1, pvdrm_slot_request K w s i = outcome.ok (r, s1) ∧
        s1.mapped.count = atomic_inc s.mapped.count ∧
        (-2 ^ 31 ≤ s.mapped.count → s.mapped.count < 2 ^ 31 - 1 →
          s1.mapped.count = s.mapped.count + 1)) ∧
    (∀ (s s1 : pvdrm_slots) (i : Nat), pvdrm_slot_alloc K s = outcome.ok (i, s1) →
      s1.mapped.count = s.mapped.count) ∧
    (∀ (s s1 : pvdrm_slots) (i : Nat), pvdrm_slot_free K s i = outcome.ok s1 →
      s1.mapped.count = s.mapped.count) ∧
    slots.mapped.count = wrap32 (requests ops) ∧
    (requests ops < 2 ^ 31 →
      slots.mapped.count = requests ops ∧
      ∀ ops1 ops2, ops = ops1 ++ ops2 →
        ∃ slots1, pool_run K slots0 ops1 = some slots1 ∧
          slots1.mapped.count = requests ops1 ∧
          slots1.mapped.count ≤ slots.mapped.count) := by
  have hc0 : slots0.mapped.count = wrap32 0 := by
    obtain ⟨_, _, hm⟩ := init_ok_spec K env slots0 hinit
    rw [hm, (init_loop_spec K zeroed_page K.PVDRM_SLOT_NR).1]
    rfl
  have hcount : ∀ (l : List pool_op) (s : pvdrm_slots), waits_keep_count l →
      pool_run K slots0 l = some s → s.mapped.count = wrap32 (requests l) := by
    intro l s hk hr
    have := pool_run_count K l slots0 s 0 hc0 hk hr
    simpa using this
  refine ⟨?_, ?_, ?_, hcount ops slots hkeep hrun, ?_⟩
  · intro s i w hne hheld hw
    have hu : is_used K (s.mapped.slot i) = true := by
      rw [is_used_iff, hheld]
      exact fun h => hne h.symm
    obtain ⟨r, s1, hr⟩ := request_returns K w s i hu
    have hm := (request_ok_spec K w s s1 i r hr).2.2
    have hc : s1.mapped.count = atomic_inc s.mapped.count := by rw [hm, hw]
    refine ⟨r, s1, hr, hc, ?_⟩
    intro h0 h1
    rw [hc, atomic_inc_of_small _ h0 h1]
  · intro s s1 i ha
    exact (alloc_ok_spec K s s1 i ha).2.2.2.2.2.2.1
  · intro s s1 i hf
    exact (free_ok_spec K s s1 i hf).2.2.2.1
  · intro hlt
    have hsmall : ∀ l : List pool_op, requests l ≤ requests ops →
        wrap32 (requests l) = requests l := by
      intro l hl
      apply wrap32_of_small
      · exact Int.natCast_nonneg _
      · have : ((requests l : Nat) : Int) ≤ ((requests ops : Nat) : Int) := by
          exact_mod_cast hl
        have hlt2 : ((requests ops : Nat) : Int) < 2 ^ 31 := by exact_mod_cast hlt
        omega
    refine ⟨?_, ?_⟩
    · rw [hcount ops slots hkeep hrun, hsmall ops (le_refl _)]
    · intro ops1 ops2 happ
      subst happ
      obtain ⟨slots1, h1, _⟩ := pool_run_append K ops1 ops2 slots0 slots hrun
      have hle : requests ops1 ≤ requests (ops1 ++ ops2) := by
        rw [requests_append]
        omega
      have hc1 : slots1.mapped.count = requests ops1 := by
        rw [hcount ops1 slots1 (waits_keep_count_left ops1 ops2 hkeep) h1, hsmall ops1 hle]
      refine ⟨slots1, h1, hc1, ?_⟩
      rw [hc1, hcount _ slots hkeep hrun, hsmall _ (le_refl _)]
      exact_mod_cast hle

theorem ops_one_cycle_keep : waits_keep_count ops_one_cycle := by
  simp [ops_one_cycle, waits_keep_count, backend_stub]

/-- An instance of C16 as amended: one cycle alloc, request, free on a pool of
capacity 2 leaves the counter at 1. -/
theorem request_count_tracks_requests_witness :
    pvdrm_slot_init K2 env_ok = (0, some pool2) ∧
    pool_run K2 pool2 ops_one_cycle = some pool2_cycled ∧
    requests ops_one_cycle = 1 ∧
    pool2_cycled.mapped.count = wrap32 (requests ops_one_cycle) ∧
    pool2_cycled.mapped.count = 1 := by
  have h := request_count_tracks_requests K2 env_ok pool2 rfl ops_one_cycle pool2_cycled
    ops_one_cycle_keep rfl
  exact ⟨rfl, rfl, rfl, h.2.2.2.1, rfl⟩

/-! ## Handle table of the back end: failure paths, order of teardown, insertion -/

theorem lookup_fst (info : pvdrm_back_device) (handle : Int) :
    (pvdrm_back_file_lookup info handle).1 = info.file_idr handle := by
  unfold pvdrm_back_file_lookup idr_find
  cases info.file_idr handle <;> rfl

theorem lookup_snd (info : pvdrm_back_device) (handle : Int) :
    (pvdrm_back_file_lookup info handle).2 = info := by
  unfold pvdrm_back_file_lookup idr_find
  cases info.file_idr handle <;> rfl

/-- The order of the effects of `pvdrm_back_file_destroy` on an entry whose list
of vmas was initialised, and the absence of effects on NULL. -/
theorem destroy_effect_order (info : pvdrm_back_device) (ptr : Nat) (file : pvdrm_back_file)
    (vmas : List Nat) (log : List back_effect) (hv : file.vmas = list_head.linked vmas) :
    pvdrm_back_file_destroy info none log = back_outcome.done (info, log) ∧
    ∃ info1, pvdrm_back_file_destroy info (some (ptr, file)) log
        = back_outcome.done (info1,
            log ++ [back_effect.filp_close file.filp]
              ++ (if file.handle > 0 then [back_effect.idr_remove file.handle] else [])
              ++ vmas.map back_effect.vma_destroy ++ [back_effect.kfree ptr]) ∧
      info1.file_idr
        = if file.handle > 0 then idr_remove info.file_idr file.handle else info.file_idr := by
  refine ⟨rfl, ?_⟩
  unfold pvdrm_back_file_destroy
  by_cases hh : file.handle > 0
  · simp only [hh, if_true, hv]
    exact ⟨_, rfl, rfl⟩
  · simp only [hh, if_false, hv, List.append_nil]
    exact ⟨_, rfl, rfl⟩

/-- The failure exit on an entry whose handle is still 0 and whose list of vmas
is not initialised. -/
theorem destroy_return_null_fresh (info : pvdrm_back_device) (ptr : Nat) (filp : Int)
    (log : List back_effect) :
    destroy_return_null info ptr { filp := filp, handle := 0, vmas := list_head.zeroed } log
      = back_outcome.oops (none, info, log ++ [back_effect.filp_close filp]) := by
  unfold destroy_return_null pvdrm_back_file_destroy
  simp

/-- C11, as the code has it: filp_open fails with ERR_PTR(-ENOENT), and
pvdrm_back_file_new goes on: it returns an entry that carries the error pointer
as its connection and registers it in the handle table under the handle 5. -/
theorem new_registers_after_failed_open :
    IS_ERR env_open_fails.filp_open = true ∧
    ∃ r, pvdrm_back_file_new 0 env_open_fails 10 device_empty = some (back_outcome.done r) ∧
      r.1 = some (64, { filp := -2, handle := 5, vmas := list_head.linked [] }) ∧
      (pvdrm_back_file_lookup r.2.1 5).1 = some 64 ∧
      (pvdrm_back_file_lookup device_empty 5).1 = none :=
  ⟨by decide, _, rfl, rfl, rfl, rfl⟩

/-- C12, as the code has it. For NULL pvdrm_back_file_destroy does nothing, and
for an entry whose list of vmas was initialised its effects are, in this order:
close of the connection, removal of the handle exactly when it is > 0, teardown
of every vma linked in, release of the entry. On the entry that
pvdrm_back_file_new passes at its failure exits, whose list of vmas is not
initialised yet, it closes the connection and then faults in the teardown loop:
no vma is torn down and the entry is not released. -/
theorem destroy_order_and_fault :
    (∀ (info : pvdrm_back_device) (log : List back_effect),
      pvdrm_back_file_destroy info none log = back_outcome.done (info, log)) ∧
    (∀ (info : pvdrm_back_device) (ptr : Nat) (file : pvdrm_back_file) (vmas : List Nat)
        (log : List back_effect), file.vmas = list_head.linked vmas →
      ∃ info1, pvdrm_back_file_destroy info (some (ptr, file)) log
          = back_outcome.done (info1,
              log ++ [back_effect.filp_close file.filp]
                ++ (if file.handle > 0 then [back_effect.idr_remove file.handle] else [])
                ++ vmas.map back_effect.vma_destroy ++ [back_effect.kfree ptr]) ∧
        info1.file_idr
          = if file.handle > 0 then idr_remove info.file_idr file.handle
            else info.file_idr) ∧
    (∃ r, pvdrm_back_file_destroy device_one (some (64, entry_at_failure_exit)) []
        = back_outcome.oops r ∧
      r.2 = [back_effect.filp_close 100]) :=
  ⟨fun _ _ => rfl,
   fun info ptr file vmas log hv => (destroy_effect_order info ptr file vmas log hv).2,
   _, rfl, rfl⟩

/-- C18, as the code has it: at both failure exits of pvdrm_back_file_new that
call pvdrm_back_file_destroy (idr_pre_get returning 0; idr_get_new_above failing
with -ENOSPC) the list of vmas of the new entry is still as kzalloc left it, and
the call ends in the fault of the teardown loop after the close of the
connection, without releasing the entry and without returning. -/
theorem new_failure_exits_fault :
    (∃ r, pvdrm_back_file_new 0 env_pre_get_fails 10 device_one = some (back_outcome.oops r) ∧
      r.2.2 = [back_effect.filp_open, back_effect.kzalloc, back_effect.idr_pre_get,
               back_effect.filp_close 100]) ∧
    (∃ r, pvdrm_back_file_new 0 env_assign_fails 10 device_one = some (back_outcome.oops r) ∧
      r.2.2 = [back_effect.filp_open, back_effect.kzalloc, back_effect.idr_pre_get,
               back_effect.idr_get_new_above 1, back_effect.filp_close 100]) :=
  ⟨⟨_, rfl, rfl⟩, ⟨_, rfl, rfl⟩⟩

/-- Every failure exit of `pvdrm_back_file_new` that calls
`pvdrm_back_file_destroy` ends in the fault of the teardown loop. -/
theorem new_failure_exit_oops (G : Int) (env : back_env) (fuel : Nat)
    (info : pvdrm_back_device) (ptr : Nat) (hz : env.kzalloc = some ptr)
    (r : back_outcome (Option (Nat × pvdrm_back_file) × pvdrm_back_device × List back_effect))
    (hnew : pvdrm_back_file_new G env fuel info = some r) (hnone : r.state.1 = none) :
    ∃ (info1 : pvdrm_back_device) (log1 : List back_effect),
      r = back_outcome.oops (none, info1, log1) ∧ info1.file_idr = info.file_idr := by
  unfold pvdrm_back_file_new at hnew
  simp only [hz] at hnew
  by_cases hp : env.idr_pre_get = 0
  · rw [if_pos hp, destroy_return_null_fresh] at hnew
    injection hnew with hnew
    subst hnew
    exact ⟨info, _, rfl, rfl⟩
  · rw [if_neg hp] at hnew
    split at hnew
    · cases hnew
    · rename_i ret pvfile1 info1 log1 ha
      by_cases hr : ret = 0
      · simp only [hr, ne_eq, not_true_eq_false, if_false] at hnew
        injection hnew with hnew
        subst hnew
        simp [back_outcome.state] at hnone
      · simp only [ne_eq, hr, not_false_eq_true, if_true] at hnew
        obtain ⟨hf, hi⟩ := (assign_handle_spec G _ ptr _ info _ _ _ _ _ _ _ ha).2 hr
        rw [hf, destroy_return_null_fresh] at hnew
        injection hnew with hnew
        subst hnew
        exact ⟨info1, _, rfl, hi⟩

/-- C19: failure is atomic for the handle table. However a call of
pvdrm_back_file_new ends without handing out an entry (it returns NULL, or its
cleanup through pvdrm_back_file_destroy ends the call), the table maps the same
handles to the same entries as before the call: the handle of the new entry is
still 0, so the cleanup removes no handle. -/
theorem new_failure_keeps_table (G : Int) (env : back_env) (fuel : Nat)
    (info : pvdrm_back_device)
    (r : back_outcome (Option (Nat × pvdrm_back_file) × pvdrm_back_device × List back_effect))
    (hnew : pvdrm_back_file_new G env fuel info = some r) (hnone : r.state.1 = none) :
    r.state.2.1.file_idr = info.file_idr ∧
    ∀ h, (pvdrm_back_file_lookup r.state.2.1 h).1 = (pvdrm_back_file_lookup info h).1 := by
  have htable : r.state.2.1.file_idr = info.file_idr := by
    cases hz : env.kzalloc with
    | none =>
      unfold pvdrm_back_file_new at hnew
      simp only [hz] at hnew
      injection hnew with hnew
      subst hnew
      rfl
    | some ptr =>
      obtain ⟨info1, log1, hr, hi⟩ := new_failure_exit_oops G env fuel info ptr hz r hnew hnone
      subst hr
      exact hi
  refine ⟨htable, ?_⟩
  intro h
  rw [lookup_fst, lookup_fst, htable]

/-- An instance of C19: kzalloc fails, pvdrm_back_file_new returns NULL and the
handle 3 is still mapped to the pointer 32. -/
theorem new_failure_keeps_table_witness :
    ∃ r, pvdrm_back_file_new 0 env_kzalloc_fails 10 device_one = some (back_outcome.done r) ∧
      r.1 = none ∧
      (pvdrm_back_file_lookup device_one 3).1 = some 32 ∧
      (pvdrm_back_file_lookup r.2.1 3).1 = some 32 := by
  have h := new_failure_keeps_table 0 env_kzalloc_fails 10 device_one
    (back_outcome.done (none, device_one, [back_effect.filp_open, back_effect.kzalloc]))
    rfl rfl
  exact ⟨_, rfl, rfl, rfl, h.2 3⟩

/-- C20: insert, then look up. When pvdrm_back_file_new returns an entry with
handle h, then h was not mapped in the table before the call,
pvdrm_back_file_lookup of h afterwards gives that entry, the lookup of every
other handle gives what it gave before the insertion, and a lookup never changes
the table; this for an allocator that, on whatever idr and with whatever starting
id it is called, assigns only an id that is not in use in that idr. -/
theorem insert_then_lookup (G : Int) (env : back_env) (fuel : Nat)
    (info info1 : pvdrm_back_device) (ptr : Nat) (file : pvdrm_back_file)
    (log : List back_effect)
    (hfresh : ∀ (k : Nat) (idr : Int → Option Nat) (starting_id : Int),
      (env.idr_get_new_above k idr starting_id).1 = 0 →
      idr (env.idr_get_new_above k idr starting_id).2 = none)
    (hnew : pvdrm_back_file_new G env fuel info
      = some (back_outcome.done (some (ptr, file), info1, log))) :
    (pvdrm_back_file_lookup info file.handle).1 = none ∧
    (pvdrm_back_file_lookup info1 file.handle).1 = some ptr ∧
    (∀ h, h ≠ file.handle →
      (pvdrm_back_file_lookup info1 h).1 = (pvdrm_back_file_lookup info h).1) ∧
    (∀ (d : pvdrm_back_device) (h : Int), (pvdrm_back_file_lookup d h).2 = d) := by
  obtain ⟨k, hk, hf, hidr⟩ := new_entry_spec G env fuel info info1 ptr file log hnew
  have hh : file.handle = (env.idr_get_new_above k info.file_idr (G + 1)).2 := by rw [hf]
  refine ⟨?_, ?_, ?_, lookup_snd⟩
  · rw [lookup_fst, hh]
    exact hfresh k info.file_idr (G + 1) hk
  · rw [lookup_fst, hidr, hh]
    simp
  · intro h hne
    rw [lookup_fst, lookup_fst, hidr]
    rw [hh] at hne
    simp [Function.update_noteq hne]

/-- An instance of C20: the table maps 3 to 32 and the starting id is 3; the
allocator passes over 3 and the new entry gets the handle 4. -/
theorem insert_then_lookup_witness :
    (pvdrm_back_file_lookup device_one 3).1 = some 32 ∧
    (pvdrm_back_file_lookup device_one 4).1 = none ∧
    (pvdrm_back_file_lookup
      { file_idr := Function.update device_one.file_idr 4 (some 64) } 4).1 = some 64 ∧
    (pvdrm_back_file_lookup
      { file_idr := Function.update device_one.file_idr 4 (some 64) } 3).1 = some 32 := by
  have h := insert_then_lookup 2 env_next_free 10 device_one
    { file_idr := Function.update device_one.file_idr 4 (some 64) } 64
    { filp := 100, handle := 4, vmas := list_head.linked [] }
    [back_effect.filp_open, back_effect.kzalloc, back_effect.idr_pre_get,
     back_effect.idr_get_new_above 3]
    (fun k idr starting_id h => (idr_next_free_contract k idr starting_id h).2) rfl
  exact ⟨rfl, h.1, h.2.1, rfl⟩

end Pvdrm
